import Mathlib

/-!
Verification development for the koilang-py repository.

The repository under verification is the pyo3 binding layer of KoiLang
(src/rust/src): command conversion (command.rs), parser bindings
(parser.rs), writer bindings (writer.rs), error conversion (error.rs),
traceback data (traceback.rs) and IO wrappers (io.rs).  The underlying
koicore crate (the value model, the line parser and the formatting
writer) is not part of the sources; everywhere it is needed it is
modelled from the specification, and each such definition carries a
doc comment starting with the words Modelled from the spec.
-/

namespace Koilang

/-! ## Value model -/

/-- Modelled from the spec: koicore's 64-bit float parameter value
(missing from src/).  IEEE semantics are out of the embedding's reach,
so a float is represented by the decimal literal it is written and
parsed as: a sign, an integer part and a non-empty list of fractional
digits.  Round-tripping is exact on this representation. -/
structure FloatLit where
  neg : Bool
  ip : Nat
  frac : List (Fin 10)
deriving DecidableEq, Repr

/-- Modelled from the spec: koicore's Value, the closed union of
signed integer, float, UTF-8 string and boolean (spec section 3).
The signed 64-bit integer is modelled as an unbounded Int; no
operation in the model overflows it. -/
inductive Value where
  | intV (i : Int)
  | floatV (f : FloatLit)
  | strV (s : String)
  | boolV (b : Bool)
deriving DecidableEq, Repr

/-- Modelled from the spec: koicore's CompositeValue, the right-hand
side of a named parameter (spec section 3): a single value, an ordered
list of values, or an ordered sequence of key/value pairs whose keys
need not be unique. -/
inductive CompositeValue where
  | single (v : Value)
  | listV (vs : List Value)
  | dictV (items : List (String × Value))
deriving DecidableEq, Repr

/-- Modelled from the spec: koicore's Parameter: a bare positional
value or a named composite value (spec section 3). -/
inductive Parameter where
  | basic (v : Value)
  | composite (name : String) (cv : CompositeValue)
deriving DecidableEq, Repr

/-- Modelled from the spec: koicore's Command: a name plus an ordered
parameter sequence (spec section 3). -/
structure Command where
  name : String
  params : List Parameter
deriving DecidableEq, Repr

/-- Modelled from the spec: the fixed sentinel name of text commands.
The concrete spelling is a model choice (the spec only fixes that one
exists and is understood by both parser and writer). -/
def textName : String := "@text"

/-- Modelled from the spec: the fixed sentinel name of annotation
commands. -/
def annoName : String := "@annotation_cmd"

/-- Modelled from the spec: the fixed sentinel name of number
commands. -/
def numberName : String := "@number"

/-- Modelled from the spec: Command::new_text, wrapping a raw line
verbatim in a text-sentinel command. -/
def Command.newText (content : String) : Command :=
  ⟨textName, [.basic (.strV content)]⟩

/-- Modelled from the spec: Command::new_annotation. -/
def Command.newAnno (content : String) : Command :=
  ⟨annoName, [.basic (.strV content)]⟩

/-- Modelled from the spec: the number-sentinel command produced for a
bare numeric line: an integer value and no extra parameters (spec
section 8, second example). -/
def Command.newNumber (n : Int) : Command :=
  ⟨numberName, [.basic (.intV n)]⟩

/-! ## Error taxonomy -/

/-- Modelled from the spec: koicore's ErrorInfo (spec section 4.4):
syntax errors, unexpected trailing input, unexpected end of input and
wrapped I/O failures (the wrapped failure is modelled by its
message). -/
inductive ErrorInfo where
  | synErr (message : String)
  | unexpectedInput (remaining : String)
  | unexpectedEof (expected : String)
  | ioError (error : String)
deriving DecidableEq, Repr

/-- Parser configuration, from src/rust/src/parser.rs (the koicore
ParserConfig produced by the From conversion at lines 34-42). -/
structure ParserConfig where
  command_threshold : Nat
  skip_annotations : Bool
  convert_number_command : Bool
deriving DecidableEq, Repr

/-! ## Character helpers for the modelled grammar -/

/-- Modelled from the spec: identifier characters of the command-name
grammar (letters, digits, underscore). -/
def isIdentChar (c : Char) : Bool := c.isAlpha || c.isDigit || c = '_'

/-- Drop leading spaces (the only inter-token whitespace the modelled
writer emits). -/
def skipSpaces (cs : List Char) : List Char := cs.dropWhile (fun c => c == ' ')

/-- Value of a hexadecimal digit character, if it is one. -/
def hexVal? (c : Char) : Option Nat :=
  if '0' ≤ c ∧ c ≤ '9' then some (c.toNat - 48)
  else if 'a' ≤ c ∧ c ≤ 'f' then some (c.toNat - 87)
  else none

/-- Whether a character is a digit of the given base (bases 2, 8, 10,
16 are used). -/
def isBaseDigit (b : Nat) (c : Char) : Bool :=
  match hexVal? c with
  | some d => decide (d < b)
  | none => false

/-- Render a digit value below 16 as a character. -/
def digitChar16 (d : Nat) : Char :=
  if d < 10 then Char.ofNat (48 + d) else Char.ofNat (87 + d)

/-- Modelled from the spec: rendering of a natural number in base b,
most significant digit first, in the writer's integer formatting. -/
def renderNat (b n : Nat) : List Char :=
  if n = 0 then ['0'] else (Nat.digits b n).reverse.map digitChar16

/-- Numeric value of a big-endian digit-character run. -/
def digitsVal (b : Nat) (ds : List Char) : Nat :=
  ds.foldl (fun a c => a * b + ((hexVal? c).getD 0)) 0

/-- Modelled from the spec: parsing a run of base-b digits from the
head of the input; fails when no digit is present. -/
def parseNatRun (b : Nat) (cs : List Char) : Option (Nat × List Char) :=
  let ds := cs.takeWhile (isBaseDigit b)
  if ds.isEmpty then none
  else some (digitsVal b ds, cs.dropWhile (isBaseDigit b))

/-- Fractional digit value of a character (defaulting inside Fin 10;
only applied to characters that passed the digit test). -/
def charFin (c : Char) : Fin 10 :=
  ⟨((hexVal? c).getD 0) % 10, Nat.mod_lt _ (by omega)⟩

/-- Render a fractional digit. -/
def finDigitChar (d : Fin 10) : Char := digitChar16 d.val

/-- Modelled from the spec: parsing the fractional digit run of a
float literal. -/
def parseFracRun (cs : List Char) : List (Fin 10) × List Char :=
  ((cs.takeWhile (isBaseDigit 10)).map charFin, cs.dropWhile (isBaseDigit 10))

/-- Sign application for integer literals. -/
def applySign (neg : Bool) (n : Nat) : Int :=
  if neg then -(n : Int) else (n : Int)

/-! ## Recursive-descent parser, modelled from the spec -/

/-- Modelled from the spec: numeric literal parsing after an optional
leading minus sign (spec sections 4.2 and 6): a 0x/0o/0b prefixed
integer, or decimal digits optionally followed by a dot and a
non-empty fractional digit run. -/
def parseNumAfterSign (neg : Bool) (cs : List Char) :
    Except ErrorInfo (Value × List Char) :=
  match cs with
  | '0' :: 'x' :: rest =>
    match parseNatRun 16 rest with
    | some (n, r) => .ok (.intV (applySign neg n), r)
    | none => .error (.synErr "invalid hexadecimal literal")
  | '0' :: 'o' :: rest =>
    match parseNatRun 8 rest with
    | some (n, r) => .ok (.intV (applySign neg n), r)
    | none => .error (.synErr "invalid octal literal")
  | '0' :: 'b' :: rest =>
    match parseNatRun 2 rest with
    | some (n, r) => .ok (.intV (applySign neg n), r)
    | none => .error (.synErr "invalid binary literal")
  | _ =>
    match parseNatRun 10 cs with
    | some (ip, r) =>
      match r with
      | '.' :: r2 =>
        match parseFracRun r2 with
        | (frac, r3) =>
          if frac.isEmpty then .error (.synErr "invalid float literal")
          else .ok (.floatV ⟨neg, ip, frac⟩, r3)
      | _ => .ok (.intV (applySign neg ip), r)
    | none => .error (.synErr "invalid numeric literal")

/-- Modelled from the spec: literal value parsing (spec section 4.2
step 3 and section 6): a quoted string, a signed numeric literal, or
one of the boolean words. -/
def parseValue (cs : List Char) : Except ErrorInfo (Value × List Char) :=
  match cs with
  | [] => .error (.unexpectedEof "value")
  | '"' :: rest =>
    match rest.dropWhile (fun c => c != '"') with
    | '"' :: r2 => .ok (.strV (String.mk (rest.takeWhile (fun c => c != '"'))), r2)
    | _ => .error (.unexpectedEof "closing quote")
  | '-' :: rest => parseNumAfterSign true rest
  | c :: _ =>
    if isBaseDigit 10 c then parseNumAfterSign false cs
    else if cs.takeWhile isIdentChar = "true".data then
      .ok (.boolV true, cs.dropWhile isIdentChar)
    else if cs.takeWhile isIdentChar = "false".data then
      .ok (.boolV false, cs.dropWhile isIdentChar)
    else .error (.synErr "invalid value")

/-- Modelled from the spec: the elements of a bracketed list after its
first element: a closing bracket, or comma-separated further values.
The fuel argument dominates the number of remaining elements. -/
def parseListTail (fuel : Nat) (cs : List Char) :
    Except ErrorInfo (List Value × List Char) :=
  match fuel with
  | 0 => .error (.unexpectedEof "closing bracket")
  | fuel + 1 =>
    match cs with
    | ']' :: r => .ok ([], r)
    | ',' :: r => do
      let (v, r2) ← parseValue (skipSpaces r)
      let (vs, r3) ← parseListTail fuel r2
      .ok (v :: vs, r3)
    | [] => .error (.unexpectedEof "closing bracket")
    | _ => .error (.unexpectedInput (String.mk cs))

/-- Modelled from the spec: the body of a bracketed list literal
(after the opening bracket). -/
def parseListBody (cs : List Char) : Except ErrorInfo (List Value × List Char) :=
  match cs with
  | ']' :: r => .ok ([], r)
  | _ => do
    let (v, r) ← parseValue cs
    let (vs, r2) ← parseListTail r.length r
    .ok (v :: vs, r2)

/-- Modelled from the spec: one key/value entry of a dict literal: a
quoted key, a colon, optional spacing, and a literal value. -/
def parseEntry (cs : List Char) : Except ErrorInfo ((String × Value) × List Char) :=
  match cs with
  | '"' :: rest =>
    match rest.dropWhile (fun c => c != '"') with
    | '"' :: r2 =>
      match r2 with
      | ':' :: r3 => do
        let (v, r4) ← parseValue (skipSpaces r3)
        .ok ((String.mk (rest.takeWhile (fun c => c != '"')), v), r4)
      | _ => .error (.synErr "expected colon in dict entry")
    | _ => .error (.unexpectedEof "closing quote")
  | _ => .error (.synErr "expected dict key")

/-- Modelled from the spec: the entries of a braced dict after its
first entry. -/
def parseEntriesTail (fuel : Nat) (cs : List Char) :
    Except ErrorInfo (List (String × Value) × List Char) :=
  match fuel with
  | 0 => .error (.unexpectedEof "closing brace")
  | fuel + 1 =>
    match cs with
    | '}' :: r => .ok ([], r)
    | ',' :: r => do
      let (e, r2) ← parseEntry (skipSpaces r)
      let (es, r3) ← parseEntriesTail fuel r2
      .ok (e :: es, r3)
    | [] => .error (.unexpectedEof "closing brace")
    | _ => .error (.unexpectedInput (String.mk cs))

/-- Modelled from the spec: the body of a braced dict literal (after
the opening brace). -/
def parseDictBody (cs : List Char) :
    Except ErrorInfo (List (String × Value) × List Char) :=
  match cs with
  | '}' :: r => .ok ([], r)
  | _ => do
    let (e, r) ← parseEntry cs
    let (es, r2) ← parseEntriesTail r.length r
    .ok (e :: es, r2)

/-- Modelled from the spec: composite-value parsing (spec section 4.2
step 3): a bracketed list, a braced dict, or a single literal. -/
def parseComposite (cs : List Char) :
    Except ErrorInfo (CompositeValue × List Char) :=
  match cs with
  | '[' :: r => do
    let (vs, r2) ← parseListBody r
    .ok (.listV vs, r2)
  | '{' :: r => do
    let (es, r2) ← parseDictBody r
    .ok (.dictV es, r2)
  | _ => do
    let (v, r) ← parseValue cs
    .ok (.single v, r)

/-- Modelled from the spec: one parameter (spec section 4.2 step 2):
either a named composite (identifier run followed by an equals sign)
or a bare literal value. -/
def parseParam (cs : List Char) : Except ErrorInfo (Parameter × List Char) :=
  match cs.takeWhile isIdentChar, cs.dropWhile isIdentChar with
  | [], _ => do
    let (v, r) ← parseValue cs
    .ok (.basic v, r)
  | idr, '=' :: t => do
    let (cv, r) ← parseComposite t
    .ok (.composite (String.mk idr) cv, r)
  | _, _ => do
    let (v, r) ← parseValue cs
    .ok (.basic v, r)

/-- Modelled from the spec: the parameters after the first one: a
closing parenthesis, or comma-separated further parameters. -/
def parseParamsTail (fuel : Nat) (cs : List Char) :
    Except ErrorInfo (List Parameter × List Char) :=
  match fuel with
  | 0 => .error (.unexpectedEof "closing parenthesis")
  | fuel + 1 =>
    match cs with
    | ')' :: r => .ok ([], r)
    | ',' :: r => do
      let (p, r2) ← parseParam (skipSpaces r)
      let (ps, r3) ← parseParamsTail fuel r2
      .ok (p :: ps, r3)
    | [] => .error (.unexpectedEof "closing parenthesis")
    | _ => .error (.unexpectedInput (String.mk cs))

/-- Modelled from the spec: a command line after its marker run (spec
sections 4.2 and 6): a command name, optionally followed by a
parenthesised, comma-separated parameter list; trailing characters
after the closing parenthesis are an error. -/
def parseCmdLine (cs : List Char) : Except ErrorInfo Command :=
  match cs.takeWhile isIdentChar with
  | [] => .error (.synErr "expected command name")
  | nm =>
    match cs.dropWhile isIdentChar with
    | [] => .ok ⟨String.mk nm, []⟩
    | '(' :: r => do
      let (p, r2) ← parseParam r
      let (ps, r3) ← parseParamsTail r.length r2
      match r3 with
      | [] => .ok ⟨String.mk nm, p :: ps⟩
      | _ => .error (.unexpectedInput (String.mk r3))
    | rest => .error (.unexpectedInput (String.mk rest))

/-- Number of leading marker characters of a line. -/
def countLeadMarkers (cs : List Char) : Nat :=
  (cs.takeWhile (fun c => c == '#')).length

/-- Modelled from the spec: parsing a whole input as a signed numeric
literal (used by the numeric-line re-classification). -/
def parseNumWhole (cs : List Char) : Except ErrorInfo (Value × List Char) :=
  match cs with
  | '-' :: r => parseNumAfterSign true r
  | _ => parseNumAfterSign false cs

/-- Modelled from the spec: whether a whole line is a bare integer
literal, and its value. -/
def intLitWhole? (cs : List Char) : Option Int :=
  match parseNumWhole cs with
  | .ok (.intV n, []) => some n
  | _ => none

/-- Modelled from the spec: the line classifier plus command parser
(spec sections 4.1 and 4.2): at least command_threshold leading
markers make a command header; a shorter non-empty marker run makes an
annotation line kept verbatim; a bare integer line makes a number
command when convert_number_command is set; anything else is a text
line kept verbatim.  Whether annotation commands are also dropped
from iteration when skip_annotations is set is left open by the spec
(section 9) and is not modelled. -/
def parseLine (cfg : ParserConfig) (line : String) : Except ErrorInfo Command :=
  let cs := line.data
  let m := countLeadMarkers cs
  if cfg.command_threshold ≤ m then parseCmdLine (cs.drop m)
  else if 1 ≤ m then .ok (Command.newAnno line)
  else
    match (if cfg.convert_number_command then intLitWhole? cs else none) with
    | some n => .ok (Command.newNumber n)
    | none => .ok (Command.newText line)

/-! ## Writer model, modelled from the spec -/

/-- NumberFormat, from src/rust/src/writer.rs lines 49-67 (the same
five variants back the koicore NumberFormat). -/
inductive NumberFormat where
  | unknown
  | decimal
  | hex
  | octal
  | binary
deriving DecidableEq, Repr

/-- FormatterOptions, from src/rust/src/writer.rs lines 212-234
(mirroring the koicore FormatterOptions of spec section 4.5). -/
structure FormatterOptions where
  indent : Nat
  use_tabs : Bool
  newline_before : Bool
  newline_after : Bool
  compact : Bool
  force_quotes_for_vars : Bool
  number_format : NumberFormat
  newline_before_param : Bool
  newline_after_param : Bool
  should_override : Bool
deriving DecidableEq, Repr

/-- A neutral default for FormatterOptions. -/
def defaultOptions : FormatterOptions :=
  ⟨0, false, false, false, false, false, .unknown, false, false, false⟩

/-- WriterConfig, from src/rust/src/writer.rs lines 259-268: global
options, per-command-name options and the marker threshold used when
writing command headers. -/
structure WriterConfig where
  global_options : FormatterOptions
  command_options : List (String × FormatterOptions)
  command_threshold : Nat

/-- Modelled from the spec: write_command resolves effective options
as the per-command entry when present, else the global options (spec
section 4.5). -/
def resolveOptions (wc : WriterConfig) (name : String) : FormatterOptions :=
  match wc.command_options.lookup name with
  | some o => o
  | none => wc.global_options

/-- Modelled from the spec: integer literal rendering under a number
format; unknown and decimal render the natural decimal form. -/
def renderInt (fmt : NumberFormat) (i : Int) : List Char :=
  let body :=
    match fmt with
    | .hex => '0' :: 'x' :: renderNat 16 i.natAbs
    | .octal => '0' :: 'o' :: renderNat 8 i.natAbs
    | .binary => '0' :: 'b' :: renderNat 2 i.natAbs
    | _ => renderNat 10 i.natAbs
  if i < 0 then '-' :: body else body

/-- Modelled from the spec: float literal rendering (sign, integer
part, dot, fractional digits). -/
def renderFloat (f : FloatLit) : List Char :=
  (if f.neg then ['-'] else []) ++ renderNat 10 f.ip ++ '.' :: f.frac.map finDigitChar

/-- Modelled from the spec: literal value rendering by the writer. -/
def renderValue (o : FormatterOptions) (v : Value) : List Char :=
  match v with
  | .intV i => renderInt o.number_format i
  | .floatV f => renderFloat f
  | .strV s => '"' :: s.data ++ ['"']
  | .boolV b => if b then "true".data else "false".data

/-- Separator between list elements, dict entries and parameters: a
bare comma in compact mode, comma plus space otherwise. -/
def sepChars (o : FormatterOptions) : List Char :=
  if o.compact then [','] else [',', ' ']

/-- Separator after a dict key: a bare colon in compact mode, colon
plus space otherwise. -/
def colonChars (o : FormatterOptions) : List Char :=
  if o.compact then [':'] else [':', ' ']

/-- Modelled from the spec: rendering of list elements after the first
one, ending at the closing bracket. -/
def renderValsTail (o : FormatterOptions) : List Value → List Char
  | [] => [']']
  | v :: vs => sepChars o ++ renderValue o v ++ renderValsTail o vs

/-- Modelled from the spec: full list literal rendering. -/
def renderListFull (o : FormatterOptions) (vs : List Value) : List Char :=
  '[' :: (match vs with
    | [] => [']']
    | v :: rest => renderValue o v ++ renderValsTail o rest)

/-- Modelled from the spec: one dict entry: quoted key, colon, value. -/
def renderEntry (o : FormatterOptions) (e : String × Value) : List Char :=
  '"' :: e.1.data ++ '"' :: colonChars o ++ renderValue o e.2

/-- Modelled from the spec: rendering of dict entries after the first
one, ending at the closing brace. -/
def renderEntriesTail (o : FormatterOptions) : List (String × Value) → List Char
  | [] => ['}']
  | e :: es => sepChars o ++ renderEntry o e ++ renderEntriesTail o es

/-- Modelled from the spec: full dict literal rendering. -/
def renderDictFull (o : FormatterOptions) (items : List (String × Value)) : List Char :=
  '{' :: (match items with
    | [] => ['}']
    | e :: es => renderEntry o e ++ renderEntriesTail o es)

/-- Modelled from the spec: composite value rendering. -/
def renderComposite (o : FormatterOptions) : CompositeValue → List Char
  | .single v => renderValue o v
  | .listV vs => renderListFull o vs
  | .dictV items => renderDictFull o items

/-- Modelled from the spec: parameter rendering: a bare value, or a
composite name, an equals sign and its composite value. -/
def renderParam (o : FormatterOptions) : Parameter → List Char
  | .basic v => renderValue o v
  | .composite n cv => n.data ++ '=' :: renderComposite o cv

/-- Modelled from the spec: rendering of parameters after the first
one, ending at the closing parenthesis. -/
def renderParamsTail (o : FormatterOptions) : List Parameter → List Char
  | [] => [')']
  | p :: ps => sepChars o ++ renderParam o p ++ renderParamsTail o ps

/-- Modelled from the spec: rendering of a regular command: the marker
run, the name and the optional parenthesised parameter list. -/
def renderCmdCore (o : FormatterOptions) (threshold : Nat) (c : Command) : List Char :=
  List.replicate threshold '#' ++ c.name.data ++
    (match c.params with
     | [] => []
     | p :: ps => '(' :: renderParam o p ++ renderParamsTail o ps)

/-- The raw content carried by a sentinel command (its single basic
string parameter). -/
def contentOf (c : Command) : String :=
  match c.params with
  | [.basic (.strV s)] => s
  | _ => ""

/-- Modelled from the spec: write_command's rendering of one command
as a line of text (PyWriter::write_command delegates to the koicore
writer, which is missing from src/).  Text and annotation sentinel
commands are written verbatim; number sentinel commands render their
integer value; regular commands render header and parameters.  The
surrounding newline and indentation state is writer state at level
zero here and does not contribute to the line. -/
def writeCommandLine (wc : WriterConfig) (c : Command) : String :=
  let o := resolveOptions wc c.name
  if c.name = textName then contentOf c
  else if c.name = annoName then contentOf c
  else if c.name = numberName then
    match c.params with
    | [.basic (.intV n)] => String.mk (renderInt o.number_format n)
    | _ => ""
  else String.mk (renderCmdCore o wc.command_threshold c)

/-! ## Python object model and conversions, from src/rust/src/command.rs -/

/-- A basic (non-container) Python object as far as the binding layer
observes it.  Python booleans are a distinct constructor, but the
extraction semantics below make them extract as integers first,
exactly as CPython's int subclassing does.  The noneV constructor
stands for any object that is none of int, float, str and bool (the
binding rejects those with a ValueError). -/
inductive PyVal where
  | int (i : Int)
  | float (f : FloatLit)
  | str (s : String)
  | bool (b : Bool)
  | noneV
deriving DecidableEq, Repr

/-- A Python object produced for a composite value: a basic object, a
Python list of basic objects, or a Python dict of basic objects.  The
conversions in command.rs never nest containers deeper than this. -/
inductive PyCompositeObj where
  | val (v : PyVal)
  | list (items : List PyVal)
  | dict (entries : List (String × PyVal))
deriving DecidableEq, Repr

/-- A Python object produced for a parameter: a basic object for a
basic parameter, or a (name, value) tuple for a composite one. -/
inductive PyParamObj where
  | val (v : PyVal)
  | tuple (name : String) (v : PyCompositeObj)
deriving DecidableEq, Repr

/-- Extraction of a Python object as an i64 (pyo3 semantics: succeeds
on int and on bool, since bool is an int subclass with True = 1 and
False = 0). -/
def extract_i64 : PyVal → Option Int
  | .int i => some i
  | .bool b => some (if b then 1 else 0)
  | _ => Option.none

/-- Extraction as an f64.  In the conversion below this arm is only
reached for objects that failed i64 extraction, so only the float
constructor matters. -/
def extract_f64 : PyVal → Option FloatLit
  | .float f => some f
  | _ => Option.none

/-- Extraction as a String (only genuine str objects). -/
def extract_str : PyVal → Option String
  | .str s => some s
  | _ => Option.none

/-- Extraction as a bool (only genuine bool objects). -/
def extract_bool : PyVal → Option Bool
  | .bool b => some b
  | _ => Option.none

/-- py_to_rs_value, from src/rust/src/command.rs lines 15-30: try
i64, then f64, then String, then bool, in that order; anything else
is a ValueError. -/
def py_to_rs_value (obj : PyVal) : Except String Value :=
  match extract_i64 obj with
  | some i => .ok (.intV i)
  | Option.none =>
    match extract_f64 obj with
    | some f => .ok (.floatV f)
    | Option.none =>
      match extract_str obj with
      | some s => .ok (.strV s)
      | Option.none =>
        match extract_bool obj with
        | some b => .ok (.boolV b)
        | Option.none => .error "Unsupported type for Value conversion"

/-- rs_value_to_py, from src/rust/src/command.rs lines 33-53. -/
def rs_value_to_py : Value → PyVal
  | .intV i => .int i
  | .floatV f => .float f
  | .strV s => .str s
  | .boolV b => .bool b

/-- Python dict item assignment: an existing key keeps its original
position and gets the new value; a new key is appended.  This is
CPython's insertion-ordered dict semantics, used by PyDict::set_item. -/
def pyDictSetItem {α : Type} : List (String × α) → String → α → List (String × α)
  | [], k, v => [(k, v)]
  | (k', v') :: t, k, v =>
    if k' = k then (k', v) :: t else (k', v') :: pyDictSetItem t k v

/-- rs_composite_value_to_py, from src/rust/src/command.rs lines
81-102: singles map through rs_value_to_py, lists map elementwise,
and dict items are inserted one by one into a fresh Python dict. -/
def rs_composite_value_to_py : CompositeValue → PyCompositeObj
  | .single v => .val (rs_value_to_py v)
  | .listV vs => .list (vs.map rs_value_to_py)
  | .dictV items =>
    .dict (items.foldl (fun d kv => pyDictSetItem d kv.1 (rs_value_to_py kv.2)) [])

/-- rs_parameter_to_py, from src/rust/src/command.rs lines 120-134. -/
def rs_parameter_to_py : Parameter → PyParamObj
  | .basic v => .val (rs_value_to_py v)
  | .composite n cv => .tuple n (rs_composite_value_to_py cv)

/-- The params getter, from src/rust/src/command.rs lines 245-252. -/
def paramsGetter (c : Command) : List PyParamObj :=
  c.params.map rs_parameter_to_py

/-- The kwargs getter, from src/rust/src/command.rs lines 273-284:
composite parameters are written into a fresh Python dict in order. -/
def kwargsGetter (c : Command) : List (String × PyCompositeObj) :=
  c.params.foldl
    (fun d p =>
      match p with
      | .composite n cv => pyDictSetItem d n (rs_composite_value_to_py cv)
      | _ => d)
    []

/-! ## Parser construction configuration, from src/rust/src/parser.rs -/

/-- PyParserConfig, from src/rust/src/parser.rs lines 22-32. -/
structure PyParserConfig where
  command_threshold : Option Nat
  skip_annotations : Bool
  convert_number_command : Bool
  skip_add_traceback : Bool
deriving DecidableEq, Repr

/-- The value produced by the derived Default implementation on
PyParserConfig: every Option is None and every bool is false.  Note
that this makes convert_number_command default to false even though
the field's doc comment and the spec call for true. -/
def pyParserConfigDefault : PyParserConfig :=
  ⟨Option.none, false, false, false⟩

/-- The From conversion PyParserConfig -> ParserConfig, from
src/rust/src/parser.rs lines 34-42: a missing threshold becomes 1. -/
def pyParserConfigFrom (c : PyParserConfig) : ParserConfig :=
  ⟨c.command_threshold.getD 1, c.skip_annotations, c.convert_number_command⟩

/-- The effective koicore ParserConfig produced by PyParser::new for a
given optional config argument (src/rust/src/parser.rs lines
145-187: config.unwrap_or_default() followed by the From
conversion). -/
def parserNewEffectiveConfig (config : Option PyParserConfig) : ParserConfig :=
  pyParserConfigFrom (config.getD pyParserConfigDefault)

/-! ## NumberFormat pickle state, from src/rust/src/writer.rs -/

/-- PyNumberFormat::__getstate__, from src/rust/src/writer.rs lines
99-101: the variant discriminant as a byte, in declaration order. -/
def numberFormatGetstate : NumberFormat → Nat
  | .unknown => 0
  | .decimal => 1
  | .hex => 2
  | .octal => 3
  | .binary => 4

/-- A simplified Python exception value for the binding layer's
ValueError results. -/
inductive PySimpleErr where
  | valueError (msg : String)
deriving DecidableEq, Repr

/-- PyNumberFormat::__setstate__, from src/rust/src/writer.rs lines
103-113: bytes 0 to 4 select the variant in declaration order, any
other byte is a ValueError. -/
def numberFormatSetstate (state : Nat) : Except PySimpleErr NumberFormat :=
  if state = 0 then .ok .unknown
  else if state = 1 then .ok .decimal
  else if state = 2 then .ok .hex
  else if state = 3 then .ok .octal
  else if state = 4 then .ok .binary
  else .error (.valueError "Invalid state")

/-! ## Writer indentation state -/

/-- Modelled from the spec: the koicore Writer's indentation state
(missing from src/; PyWriter::inc_indent, dec_indent and get_indent at
src/rust/src/writer.rs lines 407-427 delegate to it).  The counter is
carried as an Int so that the clamping behaviour is a real statement;
the written output is kept as a list of already-emitted chunks. -/
structure WriterState where
  indent_level : Int
  out : List String
deriving DecidableEq, Repr

/-- Modelled from the spec: inc_indent increases the counter by one. -/
def inc_indent (w : WriterState) : WriterState :=
  { w with indent_level := w.indent_level + 1 }

/-- Modelled from the spec: dec_indent decreases the counter by one
but clamps at zero. -/
def dec_indent (w : WriterState) : WriterState :=
  { w with indent_level := max (w.indent_level - 1) 0 }

/-- Modelled from the spec: get_indent reads the counter and changes
nothing; the pair makes the absence of mutation a statement. -/
def get_indent (w : WriterState) : Int × WriterState :=
  (w.indent_level, w)

/-! ## Python file-like line source, from src/rust/src/parser.rs lines 44-106 -/

/-- What the wrapped Python str object can report: the result of the
emptiness check (which pyo3 exposes fallibly) and the UTF-8 decoding
of its contents (None for invalid UTF-8). -/
structure PyStrObj where
  is_empty : Except String Bool
  utf8 : Option String
deriving Repr

/-- The possible outcomes of calling readline() on the wrapped Python
object. -/
inductive ReadlineResult where
  | raised (e : String)
  | nonString
  | str (o : PyStrObj)
deriving Repr

/-- An io::Error as next_line produces it: the error kind plus a
message. -/
inductive IoErr where
  | other (msg : String)
  | invalidData (msg : String)
deriving DecidableEq, Repr

/-- PyIoWrapper's TextInputSource::next_line, from
src/rust/src/parser.rs lines 45-93: a raised readline is an Other
I/O error; a non-str return is InvalidData; an empty string is clean
end of input; a failing emptiness check is an Other I/O error;
invalid UTF-8 is InvalidData; otherwise the decoded line is
returned. -/
def next_line (r : ReadlineResult) : Except IoErr (Option String) :=
  match r with
  | .raised e => .error (.other e)
  | .nonString => .error (.invalidData "readline() returned non-string value")
  | .str o =>
    match o.is_empty with
    | .ok true => .ok Option.none
    | .error pyerr => .error (.other pyerr)
    | .ok false =>
      match o.utf8 with
      | Option.none => .error (.invalidData "Invalid UTF-8 in input")
      | some s => .ok (some s)

/-! ## Parse errors, exception conversion and the parser stream -/

/-- TracebackEntry, from src/rust/src/traceback.rs lines 88-110 (the
koicore tree it wraps): line number, half-open column range, context
and nested children. -/
inductive TracebackEntry where
  | mk (lineno : Nat) (column_range : Nat × Nat) (context : String)
       (children : List TracebackEntry)
deriving Repr

/-- ParserLineSource, from src/rust/src/traceback.rs lines 22-44 and
the koicore struct behind it: filename, 1-based line number, raw
text. -/
structure ParserLineSource where
  filename : String
  lineno : Nat
  text : String
deriving DecidableEq, Repr

/-- Modelled from the spec: koicore's ParseError (spec section 3):
the error kind plus the optional diagnostics tree and line source
captured at failure time. -/
structure ParseError where
  error_info : ErrorInfo
  traceback : Option TracebackEntry
  source : Option ParserLineSource
deriving Repr

/-- The Python exception produced by the binding layer: one of the
three KoiParseError subclasses with their payloads, a raw OSError for
wrapped I/O failures, StopIteration, ValueError, or an arbitrary
exception raised by user callback code. -/
inductive PyExc where
  | koiSyn (message : String) (tb : Option TracebackEntry) (src : Option ParserLineSource)
  | koiUnexpectedInput (remaining : String) (tb : Option TracebackEntry) (src : Option ParserLineSource)
  | koiUnexpectedEof (expected : String) (tb : Option TracebackEntry) (src : Option ParserLineSource)
  | ioExc (e : String)
  | stopIteration
  | valueError (msg : String)
  | user (tag : Nat)
deriving Repr

/-- raise_parser_err, from src/rust/src/error.rs lines 174-201: the
three parse failure kinds map to the matching KoiParseError subclass
carrying the error's traceback and source; an IoError is raised as
the wrapped I/O failure directly, with no traceback or source. -/
def raise_parser_err (e : ParseError) : PyExc :=
  match e.error_info with
  | .synErr m => .koiSyn m e.traceback e.source
  | .unexpectedInput r => .koiUnexpectedInput r e.traceback e.source
  | .unexpectedEof x => .koiUnexpectedEof x e.traceback e.source
  | .ioError io => .ioExc io

/-- A raised Python exception together with the synthetic Python
frames attached to it by add_traceback (traceback.rs lines 220-255);
each frame is (filename, funcname, lineno). -/
structure Raised where
  exc : PyExc
  frames : List (String × String × Nat)
deriving Repr

/-- add_traceback, from src/rust/src/traceback.rs lines 220-255:
pushes one synthetic Python frame onto the exception. -/
def add_traceback (r : Raised) (filename funcname : String) (lineno : Nat) : Raised :=
  { r with frames := r.frames ++ [(filename, funcname, lineno)] }

/-- One item of the parser's input stream: a successfully read line,
or an I/O failure reported by the line source. -/
inductive LineItem where
  | text (s : String)
  | ioFail (e : String)
deriving Repr

/-- Modelled from the spec: the koicore parser's incremental state:
configuration, source name, next 1-based line number and remaining
input. -/
structure ParserState where
  cfg : ParserConfig
  filename : String
  lineno : Nat
  input : List LineItem
deriving Repr

/-- The diagnostics root frame recorded for a failing line.  The tree
below the root is built during descent; the model keeps the root
only, which is all the binding-layer claims observe. -/
def mkTb (ln : Nat) (l : String) : TracebackEntry :=
  .mk ln (0, l.data.length) "parsing command line" []

/-- Modelled from the spec: the koicore Parser::next_command (spec
section 4.2): clean end of input yields None; an I/O failure yields
an IoError with neither traceback nor source; a line parse failure
yields the error enriched with the diagnostics tree and the line
source; a parsed line yields its command. -/
def next_command_core (st : ParserState) : Except ParseError (Option Command) × ParserState :=
  match st.input with
  | [] => (.ok Option.none, st)
  | .ioFail e :: rest =>
    (.error ⟨.ioError e, Option.none, Option.none⟩,
     { st with lineno := st.lineno + 1, input := rest })
  | .text l :: rest =>
    ((match parseLine st.cfg l with
      | .ok c => .ok (some c)
      | .error info =>
        .error ⟨info, some (mkTb st.lineno l), some ⟨st.filename, st.lineno, l⟩⟩),
     { st with lineno := st.lineno + 1, input := rest })

/-- The full Python parser state: the stored PyParserConfig plus the
inner koicore parser. -/
structure PyParserState where
  pycfg : PyParserConfig
  inner : ParserState
deriving Repr

/-- PyParser::next_command, from src/rust/src/parser.rs lines
198-217: an Ok result passes through; an IoError error raises the
wrapped failure directly; any other error is converted by
raise_parser_err and, when a source is present and
skip_add_traceback is off, enriched with one synthetic frame. -/
def next_command (st : PyParserState) : Except Raised (Option Command) × PyParserState :=
  match next_command_core st.inner with
  | (.ok x, inner') => (.ok x, { st with inner := inner' })
  | (.error pe, inner') =>
    match pe.error_info with
    | .ioError e => (.error ⟨.ioExc e, []⟩, { st with inner := inner' })
    | _ =>
      let exc := raise_parser_err pe
      let raised : Raised :=
        match pe.source with
        | some s =>
          if st.pycfg.skip_add_traceback then ⟨exc, []⟩
          else add_traceback ⟨exc, []⟩ s.filename "<koilang>" s.lineno
        | Option.none => ⟨exc, []⟩
      (.error raised, { st with inner := inner' })

/-- PyParser::__next__, from src/rust/src/parser.rs lines 235-240: a
command passes through, end of input raises StopIteration, errors
propagate. -/
def dunder_next (st : PyParserState) : Except Raised Command × PyParserState :=
  match next_command st with
  | (.ok (some c), st') => (.ok c, st')
  | (.ok Option.none, st') => (.error ⟨.stopIteration, []⟩, st')
  | (.error e, st') => (.error e, st')

/-- PyParser::process_with, from src/rust/src/parser.rs lines
259-296: loop over next_command; invoke the callback on each
command; stop with false when the callback returns false; propagate a
callback exception unchanged; finish with true at end of input; on a
parse error convert it exactly as next_command's error path does
(note: unlike next_command, this loop has no early IoError return,
but raise_parser_err raises IoError unwrapped and an IoError carries
no source, so no frame is added).  The model also returns the list of
commands the callback was invoked on, in invocation order. -/
def process_with (pycfg : PyParserConfig) (cfg : ParserConfig) (fn : String) :
    Nat → List LineItem → (Command → Except PyExc Bool) → Except Raised Bool × List Command
  | _, [], _ => (.ok true, [])
  | ln, it :: rest, cb =>
    match (next_command_core ⟨cfg, fn, ln, it :: rest⟩).1 with
    | .ok (some c) =>
      match cb c with
      | .error e => (.error ⟨e, []⟩, [c])
      | .ok false => (.ok false, [c])
      | .ok true =>
        match process_with pycfg cfg fn (ln + 1) rest cb with
        | (res, tr) => (res, c :: tr)
    | .ok Option.none => (.ok true, [])
    | .error pe =>
      let exc := raise_parser_err pe
      let raised : Raised :=
        match pe.source with
        | some s =>
          if pycfg.skip_add_traceback then ⟨exc, []⟩
          else add_traceback ⟨exc, []⟩ s.filename "<koilang>" s.lineno
        | Option.none => ⟨exc, []⟩
      (.error raised, [])

/-- Iterated next_command: the list of the first k results. -/
def run_next_commands : PyParserState → Nat → List (Except Raised (Option Command))
  | _, 0 => []
  | st, k + 1 =>
    match next_command st with
    | (r, st') => r :: run_next_commands st' k

/-! ## Producibility predicates for the round-trip proof -/

/-- A head-condition on the unparsed remainder: empty, or starting
with a character failing the predicate. -/
def headNot (p : Char → Bool) : List Char → Prop
  | [] => True
  | c :: _ => p c = false

/-- The characters that may legally follow a rendered literal inside
a command line: a separator comma or one of the three closers. -/
def stops : List Char → Prop
  | [] => True
  | c :: _ => c = ',' ∨ c = ')' ∨ c = ']' ∨ c = '}'

/-- A non-empty string of identifier characters. -/
def IdentStr (s : String) : Prop :=
  s.data ≠ [] ∧ ∀ c ∈ s.data, isIdentChar c = true

/-- Values the parser can produce: strings contain no quote character
and floats have a non-empty fractional digit run. -/
def WFValue : Value → Prop
  | .strV s => '"' ∉ s.data
  | .floatV f => f.frac ≠ []
  | _ => True

/-- Composite values the parser can produce. -/
def WFComposite : CompositeValue → Prop
  | .single v => WFValue v
  | .listV vs => ∀ v ∈ vs, WFValue v
  | .dictV items => ∀ e ∈ items, '"' ∉ e.1.data ∧ WFValue e.2

/-- Parameters the parser can produce. -/
def WFParam : Parameter → Prop
  | .basic v => WFValue v
  | .composite n cv => IdentStr n ∧ WFComposite cv

/-- Commands the parser can produce under a configuration: the three
sentinel shapes with re-classifiable content, or a regular command
with an identifier name and producible parameters. -/
def WFCommand (cfg : ParserConfig) (c : Command) : Prop :=
  (c.name = textName ∧ ∃ s, c.params = [.basic (.strV s)] ∧
     countLeadMarkers s.data = 0 ∧
     (cfg.convert_number_command = true → intLitWhole? s.data = Option.none))
  ∨ (c.name = annoName ∧ ∃ s, c.params = [.basic (.strV s)] ∧
     1 ≤ countLeadMarkers s.data ∧ countLeadMarkers s.data < cfg.command_threshold)
  ∨ (c.name = numberName ∧ cfg.convert_number_command = true ∧
     ∃ n, c.params = [.basic (.intV n)])
  ∨ (IdentStr c.name ∧ ∀ p ∈ c.params, WFParam p)

/-! ## Helper lemmas: characters, digits, takeWhile -/

theorem takeWhile_append_all {p : Char → Bool} :
    ∀ {L rest : List Char}, (∀ c ∈ L, p c = true) → headNot p rest →
      (L ++ rest).takeWhile p = L ∧ (L ++ rest).dropWhile p = rest := by
  intro L
  induction L with
  | nil =>
    intro rest _ hr
    cases rest with
    | nil => simp
    | cons c t =>
      have hc : p c = false := hr
      simp [List.takeWhile, List.dropWhile, hc]
  | cons c L ih =>
    intro rest hL hr
    have hc : p c = true := hL c (by simp)
    have hrec := ih (fun x hx => hL x (by simp [hx])) hr
    simp [List.takeWhile, List.dropWhile, hc, hrec.1, hrec.2]

theorem hexVal_digitChar16 {d : Nat} (h : d < 16) :
    hexVal? (digitChar16 d) = some d := by
  interval_cases d <;> decide

theorem isBaseDigit_digitChar16 {b d : Nat} (hd : d < 16) (hdb : d < b) :
    isBaseDigit b (digitChar16 d) = true := by
  simp [isBaseDigit, hexVal_digitChar16 hd, hdb]

theorem digitChar16_ne_zero {d : Nat} (hd : d < 16) (h0 : d ≠ 0) :
    digitChar16 d ≠ '0' := by
  interval_cases d <;> simp_all <;> decide

theorem foldl_mul_add (b : Nat) :
    ∀ (L : List Nat) (a : Nat),
      L.foldl (fun x d => x * b + d) a = a * b ^ L.length + Nat.ofDigits b L.reverse := by
  intro L
  induction L with
  | nil => intro a; simp [Nat.ofDigits]
  | cons d L ih =>
    intro a
    have := ih (a * b + d)
    simp only [List.foldl, this, List.reverse_cons, List.length_cons]
    have happ : (Nat.ofDigits b (L.reverse ++ [d]) : ℕ) =
        Nat.ofDigits b L.reverse + b ^ L.reverse.length * Nat.ofDigits b [d] := by
      exact_mod_cast Nat.ofDigits_append
    rw [happ]
    simp [Nat.ofDigits]
    ring

theorem foldl_eq_of_mem {α β : Type} (f g : β → α → β) :
    ∀ (L : List α), (∀ d ∈ L, ∀ x, f x d = g x d) → ∀ a, L.foldl f a = L.foldl g a := by
  intro L
  induction L with
  | nil => intro _ a; rfl
  | cons d L ih =>
    intro h a
    simp only [List.foldl]
    rw [h d (by simp), ih (fun x hx => h x (by simp [hx]))]

theorem digitsVal_renderNat {b n : Nat} (hb : 2 ≤ b) (hb16 : b ≤ 16) :
    digitsVal b (renderNat b n) = n := by
  by_cases h0 : n = 0
  · subst h0
    have h : hexVal? '0' = some 0 := by decide
    simp [renderNat, digitsVal, h]
  · unfold renderNat digitsVal
    rw [if_neg h0, List.foldl_map]
    have hdig : ∀ d ∈ (Nat.digits b n).reverse, ∀ x : Nat,
        x * b + (hexVal? (digitChar16 d)).getD 0 = x * b + d := by
      intro d hd x
      have hdb : d < b := Nat.digits_lt_base hb (List.mem_reverse.mp hd)
      rw [hexVal_digitChar16 (by omega)]
      rfl
    rw [foldl_eq_of_mem _ _ _ hdig 0, foldl_mul_add]
    simp [Nat.ofDigits_digits]

theorem renderNat_all_digits {b n : Nat} (hb : 2 ≤ b) (hb16 : b ≤ 16) :
    ∀ c ∈ renderNat b n, isBaseDigit b c = true := by
  intro c hc
  unfold renderNat at hc
  by_cases h0 : n = 0
  · subst h0; simp at hc; subst hc
    simp [isBaseDigit, hexVal?]
    omega
  · rw [if_neg h0] at hc
    obtain ⟨d, hd, rfl⟩ := List.mem_map.mp hc
    have hdb : d < b := Nat.digits_lt_base hb (List.mem_reverse.mp hd)
    exact isBaseDigit_digitChar16 (by omega) hdb

theorem renderNat_ne_nil {b n : Nat} (hb : 2 ≤ b) : renderNat b n ≠ [] := by
  unfold renderNat
  by_cases h0 : n = 0
  · simp [h0]
  · rw [if_neg h0]
    intro h
    rw [List.map_eq_nil] at h
    exact absurd (List.reverse_eq_nil_iff.mp h) (Nat.digits_ne_nil_iff_ne_zero.mpr h0)

theorem parseNatRun_complete {b n : Nat} {rest : List Char}
    (hb : 2 ≤ b) (hb16 : b ≤ 16) (hr : headNot (isBaseDigit b) rest) :
    parseNatRun b (renderNat b n ++ rest) = some (n, rest) := by
  obtain ⟨ht, hd⟩ := takeWhile_append_all (renderNat_all_digits hb hb16) hr
  unfold parseNatRun
  rw [ht, hd]
  simp [List.isEmpty_iff, renderNat_ne_nil hb, digitsVal_renderNat hb hb16]

theorem isBaseDigit_of_none {b : Nat} {c : Char} (h : hexVal? c = none) :
    isBaseDigit b c = false := by
  simp [isBaseDigit, h]

theorem stops_not_digit {b : Nat} {rest : List Char} (hr : stops rest) :
    headNot (isBaseDigit b) rest := by
  cases rest with
  | nil => trivial
  | cons c t =>
    rcases hr with h | h | h | h <;> subst h <;>
      exact isBaseDigit_of_none (by decide)

theorem stops_not_ident {rest : List Char} (hr : stops rest) :
    headNot isIdentChar rest := by
  cases rest with
  | nil => trivial
  | cons c t => rcases hr with h | h | h | h <;> subst h <;> simp [headNot] <;> decide

theorem skipSpaces_of_headNot {cs : List Char}
    (h : headNot (fun c => c == ' ') cs) : skipSpaces cs = cs := by
  cases cs with
  | nil => rfl
  | cons c t =>
    have hc : (c == ' ') = false := h
    simp [skipSpaces, List.dropWhile, hc]

theorem stops_not_space {rest : List Char} (hr : stops rest) :
    headNot (fun c => c == ' ') rest := by
  cases rest with
  | nil => trivial
  | cons c t => rcases hr with h | h | h | h <;> subst h <;> simp [headNot] <;> decide

theorem renderValue_head (o : FormatterOptions) (v : Value) :
    ∃ c t, renderValue o v = c :: t ∧
      (c = '"' ∨ c = '-' ∨ isBaseDigit 10 c = true ∨ c = 't' ∨ c = 'f') := by
  cases v with
  | strV s => exact ⟨'"', _, rfl, Or.inl rfl⟩
  | boolV b =>
    cases b with
    | true => exact ⟨'t', _, rfl, by simp⟩
    | false => exact ⟨'f', _, rfl, by simp⟩
  | intV i =>
    cases hfmt : o.number_format <;> by_cases hneg : i < 0
    · exact ⟨'-', renderNat 10 i.natAbs,
        by simp [renderValue, renderInt, hfmt, hneg], by simp⟩
    · obtain ⟨c, t, hct⟩ := List.exists_cons_of_ne_nil
        (renderNat_ne_nil (b := 10) (n := i.natAbs) (by omega))
      refine ⟨c, t, by simp [renderValue, renderInt, hfmt, hneg, hct], ?_⟩
      right; right; left
      exact renderNat_all_digits (by omega) (by omega) c (by rw [hct]; simp)
    · exact ⟨'-', renderNat 10 i.natAbs,
        by simp [renderValue, renderInt, hfmt, hneg], by simp⟩
    · obtain ⟨c, t, hct⟩ := List.exists_cons_of_ne_nil
        (renderNat_ne_nil (b := 10) (n := i.natAbs) (by omega))
      refine ⟨c, t, by simp [renderValue, renderInt, hfmt, hneg, hct], ?_⟩
      right; right; left
      exact renderNat_all_digits (by omega) (by omega) c (by rw [hct]; simp)
    · exact ⟨'-', '0' :: 'x' :: renderNat 16 i.natAbs,
        by simp [renderValue, renderInt, hfmt, hneg], by simp⟩
    · exact ⟨'0', 'x' :: renderNat 16 i.natAbs,
        by simp [renderValue, renderInt, hfmt, hneg], by right; right; left; decide⟩
    · exact ⟨'-', '0' :: 'o' :: renderNat 8 i.natAbs,
        by simp [renderValue, renderInt, hfmt, hneg], by simp⟩
    · exact ⟨'0', 'o' :: renderNat 8 i.natAbs,
        by simp [renderValue, renderInt, hfmt, hneg], by right; right; left; decide⟩
    · exact ⟨'-', '0' :: 'b' :: renderNat 2 i.natAbs,
        by simp [renderValue, renderInt, hfmt, hneg], by simp⟩
    · exact ⟨'0', 'b' :: renderNat 2 i.natAbs,
        by simp [renderValue, renderInt, hfmt, hneg], by right; right; left; decide⟩
  | floatV f =>
    cases hneg : f.neg with
    | true =>
      exact ⟨'-', renderNat 10 f.ip ++ '.' :: f.frac.map finDigitChar,
        by simp [renderValue, renderFloat, hneg], by simp⟩
    | false =>
      obtain ⟨c, t, hct⟩ := List.exists_cons_of_ne_nil
        (renderNat_ne_nil (b := 10) (n := f.ip) (by omega))
      refine ⟨c, t ++ '.' :: f.frac.map finDigitChar,
        by simp [renderValue, renderFloat, hneg, hct], ?_⟩
      right; right; left
      exact renderNat_all_digits (by omega) (by omega) c (by rw [hct]; simp)

theorem finDigitChar_digit : ∀ d : Fin 10, isBaseDigit 10 (finDigitChar d) = true := by
  decide

theorem charFin_finDigitChar : ∀ d : Fin 10, charFin (finDigitChar d) = d := by
  decide

theorem renderNat10_append_ne_pref {n : Nat} {rest restX : List Char} {c2 : Char}
    (h2 : isBaseDigit 10 c2 = false) (hrest : ∀ u, rest ≠ c2 :: u) :
    renderNat 10 n ++ rest ≠ '0' :: c2 :: restX := by
  intro heq
  obtain ⟨c, t, hct⟩ := List.exists_cons_of_ne_nil (renderNat_ne_nil (b := 10) (n := n) (by omega))
  cases t with
  | nil =>
    rw [hct] at heq
    simp only [List.cons_append, List.nil_append, List.cons_eq_cons] at heq
    exact (hrest restX heq.2).elim
  | cons c2' t2 =>
    rw [hct] at heq
    simp only [List.cons_append, List.cons_eq_cons] at heq
    have hc2' : isBaseDigit 10 c2' = true := by
      have : c2' ∈ renderNat 10 n := by rw [hct]; simp
      exact renderNat_all_digits (by omega) (by omega) c2' this
    rw [heq.2.1] at hc2'
    rw [h2] at hc2'
    exact Bool.false_ne_true hc2'

theorem parseNumAfterSign_decimal {neg : Bool} {n : Nat} {rest : List Char}
    (hr : stops rest) :
    parseNumAfterSign neg (renderNat 10 n ++ rest) =
      .ok (.intV (applySign neg n), rest) := by
  have hpn : parseNatRun 10 (renderNat 10 n ++ rest) = some (n, rest) :=
    parseNatRun_complete (by omega) (by omega) (stops_not_digit hr)
  have hstop : ∀ (c2 : Char), c2 = 'x' ∨ c2 = 'o' ∨ c2 = 'b' → ∀ u, rest ≠ c2 :: u := by
    intro c2 hc2 u hu
    subst hu
    rcases hc2 with rfl | rfl | rfl <;> rcases hr with h | h | h | h <;> simp_all
  rw [parseNumAfterSign.eq_def]
  split
  · rename_i restX heq
    exact absurd heq (renderNat10_append_ne_pref (by decide) (hstop 'x' (by simp)))
  · rename_i restX heq
    exact absurd heq (renderNat10_append_ne_pref (by decide) (hstop 'o' (by simp)))
  · rename_i restX heq
    exact absurd heq (renderNat10_append_ne_pref (by decide) (hstop 'b' (by simp)))
  · rw [hpn]
    cases rest with
    | nil => rfl
    | cons c t => rcases hr with h | h | h | h <;> subst h <;> rfl

theorem parseNumAfterSign_hex {neg : Bool} {n : Nat} {rest : List Char}
    (hr : stops rest) :
    parseNumAfterSign neg ('0' :: 'x' :: (renderNat 16 n ++ rest)) =
      .ok (.intV (applySign neg n), rest) := by
  rw [parseNumAfterSign.eq_def]
  split
  · rename_i restX heq
    rw [List.cons_eq_cons, List.cons_eq_cons] at heq
    rw [← heq.2.2, parseNatRun_complete (by omega) (by omega) (stops_not_digit hr)]
  · rename_i restX heq; simp at heq
  · rename_i restX heq; simp at heq
  · rename_i h1 h2 h3
    exact absurd rfl (h1 (renderNat 16 n ++ rest))

theorem parseNumAfterSign_octal {neg : Bool} {n : Nat} {rest : List Char}
    (hr : stops rest) :
    parseNumAfterSign neg ('0' :: 'o' :: (renderNat 8 n ++ rest)) =
      .ok (.intV (applySign neg n), rest) := by
  rw [parseNumAfterSign.eq_def]
  split
  · rename_i restX heq; simp at heq
  · rename_i restX heq
    rw [List.cons_eq_cons, List.cons_eq_cons] at heq
    rw [← heq.2.2, parseNatRun_complete (by omega) (by omega) (stops_not_digit hr)]
  · rename_i restX heq; simp at heq
  · rename_i h1 h2 h3
    exact absurd rfl (h2 (renderNat 8 n ++ rest))

theorem parseNumAfterSign_binary {neg : Bool} {n : Nat} {rest : List Char}
    (hr : stops rest) :
    parseNumAfterSign neg ('0' :: 'b' :: (renderNat 2 n ++ rest)) =
      .ok (.intV (applySign neg n), rest) := by
  rw [parseNumAfterSign.eq_def]
  split
  · rename_i restX heq; simp at heq
  · rename_i restX heq; simp at heq
  · rename_i restX heq
    rw [List.cons_eq_cons, List.cons_eq_cons] at heq
    rw [← heq.2.2, parseNatRun_complete (by omega) (by omega) (stops_not_digit hr)]
  · rename_i h1 h2 h3
    exact absurd rfl (h3 (renderNat 2 n ++ rest))

theorem parseNumAfterSign_float {neg : Bool} {ip : Nat} {frac : List (Fin 10)}
    {rest : List Char} (hfr : frac ≠ []) (hr : stops rest) :
    parseNumAfterSign neg (renderNat 10 ip ++ '.' :: (frac.map finDigitChar ++ rest)) =
      .ok (.floatV ⟨neg, ip, frac⟩, rest) := by
  have hdot : headNot (isBaseDigit 10) ('.' :: (frac.map finDigitChar ++ rest)) := by
    exact isBaseDigit_of_none (by decide)
  have hpn : parseNatRun 10 (renderNat 10 ip ++ '.' :: (frac.map finDigitChar ++ rest)) =
      some (ip, '.' :: (frac.map finDigitChar ++ rest)) :=
    parseNatRun_complete (by omega) (by omega) hdot
  have hfracRun : parseFracRun (frac.map finDigitChar ++ rest) = (frac, rest) := by
    unfold parseFracRun
    have hall : ∀ c ∈ frac.map finDigitChar, isBaseDigit 10 c = true := by
      intro c hc
      obtain ⟨d, _, rfl⟩ := List.mem_map.mp hc
      exact finDigitChar_digit d
    obtain ⟨ht, hd⟩ := takeWhile_append_all hall (stops_not_digit hr)
    rw [ht, hd, List.map_map]
    congr 1
    rw [show charFin ∘ finDigitChar = id from funext charFin_finDigitChar, List.map_id]
  rw [parseNumAfterSign.eq_def]
  split
  · rename_i restX heq
    refine absurd heq (renderNat10_append_ne_pref (by decide) ?_)
    intro u hu; simp at hu
  · rename_i restX heq
    refine absurd heq (renderNat10_append_ne_pref (by decide) ?_)
    intro u hu; simp at hu
  · rename_i restX heq
    refine absurd heq (renderNat10_append_ne_pref (by decide) ?_)
    intro u hu; simp at hu
  · rw [hpn]
    simp only [hfracRun]
    rw [if_neg (by simp [List.isEmpty_iff, hfr])]

theorem parseValue_via_num {c : Char} {t rest : List Char} {v : Value}
    (hc : isBaseDigit 10 c = true)
    (hnum : parseNumAfterSign false (c :: t) = .ok (v, rest)) :
    parseValue (c :: t) = .ok (v, rest) := by
  rw [parseValue.eq_def]
  split
  · rename_i heq; simp at heq
  · rename_i r heq
    rw [List.cons_eq_cons] at heq
    rw [heq.1] at hc
    exact absurd hc (by decide)
  · rename_i r heq
    rw [List.cons_eq_cons] at heq
    rw [heq.1] at hc
    exact absurd hc (by decide)
  · rename_i cx tx heq
    obtain ⟨h1, h2⟩ := List.cons_eq_cons.mp heq
    subst h1
    subst h2
    rw [if_pos hc]
    exact hnum

theorem applySign_natAbs_neg {i : Int} (h : i < 0) : applySign true i.natAbs = i := by
  rw [show applySign true i.natAbs = -(i.natAbs : Int) from rfl]
  omega

theorem applySign_natAbs_pos {i : Int} (h : ¬ i < 0) : applySign false i.natAbs = i := by
  rw [show applySign false i.natAbs = (i.natAbs : Int) from rfl]
  omega

theorem parseValue_complete {o : FormatterOptions} {v : Value} {rest : List Char}
    (hv : WFValue v) (hr : stops rest) :
    parseValue (renderValue o v ++ rest) = .ok (v, rest) := by
  cases v with
  | strV s =>
    have hshape : renderValue o (.strV s) ++ rest = '"' :: (s.data ++ '"' :: rest) := by
      simp [renderValue]
    rw [hshape]
    have hmem : ∀ c ∈ s.data, (c != '"') = true := by
      intro c hc
      simp only [bne_iff_ne, ne_eq]
      intro heq
      exact (by exact hv : '"' ∉ s.data) (heq ▸ hc)
    have hhn : headNot (fun c => c != '"') ('"' :: rest) := by simp [headNot]
    obtain ⟨ht, hd⟩ := takeWhile_append_all hmem hhn
    show (match (s.data ++ '"' :: rest).dropWhile (fun c => c != '"') with
      | '"' :: r2 => Except.ok (Value.strV (String.mk ((s.data ++ '"' :: rest).takeWhile (fun c => c != '"'))), r2)
      | _ => (Except.error (ErrorInfo.unexpectedEof "closing quote") : Except ErrorInfo (Value × List Char))) =
      Except.ok (Value.strV s, rest)
    rw [ht, hd]
    cases s
    rfl
  | boolV b =>
    have hni : headNot isIdentChar rest := stops_not_ident hr
    cases b with
    | true =>
      have hmem : ∀ c ∈ "true".data, isIdentChar c = true := by decide
      obtain ⟨ht, hd⟩ := takeWhile_append_all hmem hni
      show (if isBaseDigit 10 't' then parseNumAfterSign false ("true".data ++ rest)
        else if ("true".data ++ rest).takeWhile isIdentChar = "true".data then
          .ok (.boolV true, ("true".data ++ rest).dropWhile isIdentChar)
        else if ("true".data ++ rest).takeWhile isIdentChar = "false".data then
          .ok (.boolV false, ("true".data ++ rest).dropWhile isIdentChar)
        else .error (.synErr "invalid value")) = .ok (.boolV true, rest)
      rw [if_neg (by decide), ht, hd]
      simp
    | false =>
      have hmem : ∀ c ∈ "false".data, isIdentChar c = true := by decide
      obtain ⟨ht, hd⟩ := takeWhile_append_all hmem hni
      show (if isBaseDigit 10 'f' then parseNumAfterSign false ("false".data ++ rest)
        else if ("false".data ++ rest).takeWhile isIdentChar = "true".data then
          .ok (.boolV true, ("false".data ++ rest).dropWhile isIdentChar)
        else if ("false".data ++ rest).takeWhile isIdentChar = "false".data then
          .ok (.boolV false, ("false".data ++ rest).dropWhile isIdentChar)
        else .error (.synErr "invalid value")) = .ok (.boolV false, rest)
      rw [if_neg (by decide), ht, hd]
      simp
  | intV i =>
    by_cases hneg : i < 0
    · cases hfmt : o.number_format
      · 
        have hshape : renderValue o (.intV i) ++ rest = '-' :: (renderNat 10 i.natAbs ++ rest) := by
          simp [renderValue, renderInt, hfmt, hneg]
        rw [hshape]
        show parseNumAfterSign true (renderNat 10 i.natAbs ++ rest) = _
        rw [parseNumAfterSign_decimal hr, applySign_natAbs_neg hneg]
      · have hshape : renderValue o (.intV i) ++ rest = '-' :: (renderNat 10 i.natAbs ++ rest) := by
          simp [renderValue, renderInt, hfmt, hneg]
        rw [hshape]
        show parseNumAfterSign true (renderNat 10 i.natAbs ++ rest) = _
        rw [parseNumAfterSign_decimal hr, applySign_natAbs_neg hneg]
      · have hshape : renderValue o (.intV i) ++ rest = '-' :: '0' :: 'x' :: (renderNat 16 i.natAbs ++ rest) := by
          simp [renderValue, renderInt, hfmt, hneg]
        rw [hshape]
        show parseNumAfterSign true ('0' :: 'x' :: (renderNat 16 i.natAbs ++ rest)) = _
        rw [parseNumAfterSign_hex hr, applySign_natAbs_neg hneg]
      · have hshape : renderValue o (.intV i) ++ rest = '-' :: '0' :: 'o' :: (renderNat 8 i.natAbs ++ rest) := by
          simp [renderValue, renderInt, hfmt, hneg]
        rw [hshape]
        show parseNumAfterSign true ('0' :: 'o' :: (renderNat 8 i.natAbs ++ rest)) = _
        rw [parseNumAfterSign_octal hr, applySign_natAbs_neg hneg]
      · have hshape : renderValue o (.intV i) ++ rest = '-' :: '0' :: 'b' :: (renderNat 2 i.natAbs ++ rest) := by
          simp [renderValue, renderInt, hfmt, hneg]
        rw [hshape]
        show parseNumAfterSign true ('0' :: 'b' :: (renderNat 2 i.natAbs ++ rest)) = _
        rw [parseNumAfterSign_binary hr, applySign_natAbs_neg hneg]
    · cases hfmt : o.number_format
      · 
        obtain ⟨c, t, hct⟩ := List.exists_cons_of_ne_nil
          (renderNat_ne_nil (b := 10) (n := i.natAbs) (by omega))
        have hcd : isBaseDigit 10 c = true :=
          renderNat_all_digits (by omega) (by omega) c (by rw [hct]; simp)
        have hshape : renderValue o (.intV i) ++ rest = c :: (t ++ rest) := by
          simp [renderValue, renderInt, hfmt, hneg, hct]
        rw [hshape]
        refine parseValue_via_num hcd ?_
        have : c :: (t ++ rest) = renderNat 10 i.natAbs ++ rest := by rw [hct]; simp
        rw [this, parseNumAfterSign_decimal hr, applySign_natAbs_pos hneg]
      · obtain ⟨c, t, hct⟩ := List.exists_cons_of_ne_nil
          (renderNat_ne_nil (b := 10) (n := i.natAbs) (by omega))
        have hcd : isBaseDigit 10 c = true :=
          renderNat_all_digits (by omega) (by omega) c (by rw [hct]; simp)
        have hshape : renderValue o (.intV i) ++ rest = c :: (t ++ rest) := by
          simp [renderValue, renderInt, hfmt, hneg, hct]
        rw [hshape]
        refine parseValue_via_num hcd ?_
        have : c :: (t ++ rest) = renderNat 10 i.natAbs ++ rest := by rw [hct]; simp
        rw [this, parseNumAfterSign_decimal hr, applySign_natAbs_pos hneg]
      · have hshape : renderValue o (.intV i) ++ rest = '0' :: ('x' :: (renderNat 16 i.natAbs ++ rest)) := by
          simp [renderValue, renderInt, hfmt, hneg]
        rw [hshape]
        refine parseValue_via_num (by decide) ?_
        rw [parseNumAfterSign_hex hr, applySign_natAbs_pos hneg]
      · have hshape : renderValue o (.intV i) ++ rest = '0' :: ('o' :: (renderNat 8 i.natAbs ++ rest)) := by
          simp [renderValue, renderInt, hfmt, hneg]
        rw [hshape]
        refine parseValue_via_num (by decide) ?_
        rw [parseNumAfterSign_octal hr, applySign_natAbs_pos hneg]
      · have hshape : renderValue o (.intV i) ++ rest = '0' :: ('b' :: (renderNat 2 i.natAbs ++ rest)) := by
          simp [renderValue, renderInt, hfmt, hneg]
        rw [hshape]
        refine parseValue_via_num (by decide) ?_
        rw [parseNumAfterSign_binary hr, applySign_natAbs_pos hneg]
  | floatV f =>
    obtain ⟨fneg, ip, frac⟩ := f
    have hfr : frac ≠ [] := hv
    cases fneg with
    | true =>
      have hshape : renderValue o (.floatV ⟨true, ip, frac⟩) ++ rest =
          '-' :: (renderNat 10 ip ++ '.' :: (frac.map finDigitChar ++ rest)) := by
        simp [renderValue, renderFloat]
      rw [hshape]
      show parseNumAfterSign true (renderNat 10 ip ++ '.' :: (frac.map finDigitChar ++ rest)) = _
      rw [parseNumAfterSign_float hfr hr]
    | false =>
      obtain ⟨c, t, hct⟩ := List.exists_cons_of_ne_nil
        (renderNat_ne_nil (b := 10) (n := ip) (by omega))
      have hcd : isBaseDigit 10 c = true :=
        renderNat_all_digits (by omega) (by omega) c (by rw [hct]; simp)
      have hshape : renderValue o (.floatV ⟨false, ip, frac⟩) ++ rest =
          c :: (t ++ '.' :: (frac.map finDigitChar ++ rest)) := by
        simp [renderValue, renderFloat, hct]
      rw [hshape]
      refine parseValue_via_num hcd ?_
      have : c :: (t ++ '.' :: (frac.map finDigitChar ++ rest)) =
          renderNat 10 ip ++ '.' :: (frac.map finDigitChar ++ rest) := by rw [hct]; simp
      rw [this, parseNumAfterSign_float hfr hr]

theorem hexVal_ident {c : Char} {d : Nat} (h : hexVal? c = some d) :
    isIdentChar c = true := by
  unfold hexVal? at h
  split_ifs at h with h1 h2
  · have l1 : Char.val '0' ≤ c.val := h1.1
    have l2 : c.val ≤ Char.val '9' := h1.2
    have hd : c.isDigit = true := by
      simp [Char.isDigit]
      exact ⟨l1, l2⟩
    simp [isIdentChar, hd]
  · have l1 : Char.val 'a' ≤ c.val := h2.1
    have l2 : c.val ≤ Char.val 'f' := h2.2
    have hl : c.isLower = true := by
      simp [Char.isLower]
      exact ⟨l1, UInt32.le_trans l2 (show Char.val 'f' ≤ (122 : UInt32) by decide)⟩
    simp [isIdentChar, Char.isAlpha, hl]

theorem baseDigit_ident {b : Nat} {c : Char} (h : isBaseDigit b c = true) :
    isIdentChar c = true := by
  unfold isBaseDigit at h
  cases hh : hexVal? c with
  | none => rw [hh] at h; exact absurd h (by simp)
  | some d => exact hexVal_ident hh

theorem baseDigit_ne {b : Nat} {c x : Char} (h : isBaseDigit b c = true)
    (hx : hexVal? x = none) : c ≠ x := by
  intro heq
  subst heq
  rw [isBaseDigit_of_none hx] at h
  exact Bool.false_ne_true h

theorem renderValue_headNot_space (o : FormatterOptions) (v : Value) (X : List Char) :
    headNot (fun c => c == ' ') (renderValue o v ++ X) := by
  obtain ⟨c, t, hct, hc⟩ := renderValue_head o v
  rw [hct]
  show (c == ' ') = false
  rcases hc with rfl | rfl | hd | rfl | rfl
  · decide
  · decide
  · simp only [beq_eq_false_iff_ne, ne_eq]
    exact baseDigit_ne hd (by decide)
  · decide
  · decide

theorem renderValue_head_notin {o : FormatterOptions} {v : Value} {x : Char}
    (hx : hexVal? x = none) (hq : x ≠ '"') (hm : x ≠ '-') (ht : x ≠ 't') (hf : x ≠ 'f') :
    ∀ X t', renderValue o v ++ X ≠ x :: t' := by
  intro X t' heq
  obtain ⟨c, t, hct, hc⟩ := renderValue_head o v
  rw [hct] at heq
  simp only [List.cons_append, List.cons_eq_cons] at heq
  rcases hc with rfl | rfl | hd | rfl | rfl
  · exact hq heq.1.symm
  · exact hm heq.1.symm
  · exact baseDigit_ne hd hx heq.1
  · exact ht heq.1.symm
  · exact hf heq.1.symm

theorem sepChars_eq (o : FormatterOptions) :
    sepChars o = ',' :: (if o.compact then ([] : List Char) else [' ']) := by
  by_cases hc : o.compact <;> simp [sepChars, hc]

theorem colonChars_eq (o : FormatterOptions) :
    colonChars o = ':' :: (if o.compact then ([] : List Char) else [' ']) := by
  by_cases hc : o.compact <;> simp [colonChars, hc]

theorem stops_renderValsTail (o : FormatterOptions) (vs : List Value) (X : List Char) :
    stops (renderValsTail o vs ++ X) := by
  cases vs with
  | nil => simp [renderValsTail, stops]
  | cons v vs =>
    rw [show renderValsTail o (v :: vs) = sepChars o ++ renderValue o v ++ renderValsTail o vs from rfl,
        sepChars_eq]
    simp only [List.cons_append, List.append_assoc]
    exact Or.inl rfl

theorem stops_renderEntriesTail (o : FormatterOptions) (es : List (String × Value)) (X : List Char) :
    stops (renderEntriesTail o es ++ X) := by
  cases es with
  | nil => simp [renderEntriesTail, stops]
  | cons e es =>
    rw [show renderEntriesTail o (e :: es) = sepChars o ++ renderEntry o e ++ renderEntriesTail o es from rfl,
        sepChars_eq]
    simp only [List.cons_append, List.append_assoc]
    exact Or.inl rfl

theorem stops_renderParamsTail (o : FormatterOptions) (ps : List Parameter) (X : List Char) :
    stops (renderParamsTail o ps ++ X) := by
  cases ps with
  | nil => simp [renderParamsTail, stops]
  | cons p ps =>
    rw [show renderParamsTail o (p :: ps) = sepChars o ++ renderParam o p ++ renderParamsTail o ps from rfl,
        sepChars_eq]
    simp only [List.cons_append, List.append_assoc]
    exact Or.inl rfl

theorem skipSpaces_sepTail {o : FormatterOptions} {X : List Char}
    (h : headNot (fun c => c == ' ') X) :
    skipSpaces ((if o.compact then ([] : List Char) else [' ']) ++ X) = X := by
  by_cases hc : o.compact
  · rw [if_pos hc, List.nil_append]
    exact skipSpaces_of_headNot h
  · rw [if_neg hc]
    show skipSpaces (' ' :: X) = X
    show List.dropWhile (fun c => c == ' ') (' ' :: X) = X
    rw [List.dropWhile_cons_of_pos (by decide)]
    exact skipSpaces_of_headNot h

theorem renderValue_length_pos (o : FormatterOptions) (v : Value) :
    1 ≤ (renderValue o v).length := by
  obtain ⟨c, t, hct, _⟩ := renderValue_head o v
  rw [hct]
  simp

theorem renderValsTail_length (o : FormatterOptions) (vs : List Value) :
    vs.length + 1 ≤ (renderValsTail o vs).length := by
  induction vs with
  | nil => simp [renderValsTail]
  | cons v vs ih =>
    show vs.length + 1 + 1 ≤ (sepChars o ++ renderValue o v ++ renderValsTail o vs).length
    have h1 := renderValue_length_pos o v
    have h2 : 1 ≤ (sepChars o).length := by
      by_cases hc : o.compact <;> simp [sepChars, hc]
    simp only [List.length_append]
    omega

theorem renderEntry_length_pos (o : FormatterOptions) (e : String × Value) :
    1 ≤ (renderEntry o e).length := by
  simp [renderEntry]

theorem renderEntriesTail_length (o : FormatterOptions) (es : List (String × Value)) :
    es.length + 1 ≤ (renderEntriesTail o es).length := by
  induction es with
  | nil => simp [renderEntriesTail]
  | cons e es ih =>
    show es.length + 1 + 1 ≤ (sepChars o ++ renderEntry o e ++ renderEntriesTail o es).length
    have h1 := renderEntry_length_pos o e
    have h2 : 1 ≤ (sepChars o).length := by
      by_cases hc : o.compact <;> simp [sepChars, hc]
    simp only [List.length_append]
    omega

theorem renderParam_length_pos (o : FormatterOptions) (p : Parameter) :
    1 ≤ (renderParam o p).length := by
  cases p with
  | basic v => exact renderValue_length_pos o v
  | composite n cv => simp [renderParam]; omega

theorem renderParamsTail_length (o : FormatterOptions) (ps : List Parameter) :
    ps.length + 1 ≤ (renderParamsTail o ps).length := by
  induction ps with
  | nil => simp [renderParamsTail]
  | cons p ps ih =>
    show ps.length + 1 + 1 ≤ (sepChars o ++ renderParam o p ++ renderParamsTail o ps).length
    have h1 := renderParam_length_pos o p
    have h2 : 1 ≤ (sepChars o).length := by
      by_cases hc : o.compact <;> simp [sepChars, hc]
    simp only [List.length_append]
    omega

theorem except_bind_ok {α β ε : Type} (a : α) (f : α → Except ε β) :
    (Except.ok a >>= f : Except ε β) = f a := rfl

theorem parseListTail_complete {o : FormatterOptions} :
    ∀ (vs : List Value) (fuel : Nat) (rest : List Char),
      (∀ v ∈ vs, WFValue v) → vs.length < fuel →
      parseListTail fuel (renderValsTail o vs ++ rest) = .ok (vs, rest) := by
  intro vs
  induction vs with
  | nil =>
    intro fuel rest _ hf
    cases fuel with
    | zero => omega
    | succ f => rfl
  | cons v vs ih =>
    intro fuel rest hwf hf
    cases fuel with
    | zero => omega
    | succ f =>
      have hshape : renderValsTail o (v :: vs) ++ rest =
          ',' :: ((if o.compact then ([] : List Char) else [' ']) ++
            (renderValue o v ++ (renderValsTail o vs ++ rest))) := by
        rw [show renderValsTail o (v :: vs) = sepChars o ++ renderValue o v ++ renderValsTail o vs from rfl,
            sepChars_eq]
        simp [List.append_assoc]
      rw [hshape]
      show (do
        let (v', r2) ← parseValue (skipSpaces ((if o.compact then ([] : List Char) else [' ']) ++
          (renderValue o v ++ (renderValsTail o vs ++ rest))))
        let (vs', r3) ← parseListTail f r2
        Except.ok (v' :: vs', r3)) = Except.ok (v :: vs, rest)
      rw [skipSpaces_sepTail (renderValue_headNot_space o v _),
        parseValue_complete (hwf v (by simp)) (stops_renderValsTail o vs rest)]
      simp only [except_bind_ok]
      rw [ih f rest (fun x hx => hwf x (by simp [hx])) (by simp at hf; omega)]
      simp only [except_bind_ok]

theorem parseComposite_list_complete {o : FormatterOptions} {vs : List Value}
    {rest : List Char} (hwf : ∀ v ∈ vs, WFValue v) :
    parseComposite (renderListFull o vs ++ rest) = .ok (.listV vs, rest) := by
  cases vs with
  | nil =>
    show parseComposite ('[' :: (']' :: rest)) = _
    rfl
  | cons v vs =>
    have hshape : renderListFull o (v :: vs) ++ rest =
        '[' :: (renderValue o v ++ (renderValsTail o vs ++ rest)) := by
      simp [renderListFull, List.append_assoc]
    rw [hshape]
    show (do
      let (vs', r2) ← parseListBody (renderValue o v ++ (renderValsTail o vs ++ rest))
      Except.ok (CompositeValue.listV vs', r2)) = _
    have hbody : parseListBody (renderValue o v ++ (renderValsTail o vs ++ rest)) =
        .ok (v :: vs, rest) := by
      rw [parseListBody.eq_def]
      split
      · rename_i r heq
        exact absurd heq (renderValue_head_notin (by decide) (by decide) (by decide)
          (by decide) (by decide) _ _)
      · rename_i hno
        rw [parseValue_complete (hwf v (by simp)) (stops_renderValsTail o vs rest)]
        simp only [except_bind_ok]
        have hlen : vs.length < (renderValsTail o vs ++ rest).length := by
          have := renderValsTail_length o vs
          simp only [List.length_append]
          omega
        rw [parseListTail_complete vs _ rest (fun x hx => hwf x (by simp [hx])) hlen]
        rfl
    rw [hbody]
    simp only [except_bind_ok]

theorem parseEntry_complete {o : FormatterOptions} {k : String} {v : Value}
    {rest : List Char} (hk : '"' ∉ k.data) (hv : WFValue v) (hr : stops rest) :
    parseEntry (renderEntry o (k, v) ++ rest) = .ok ((k, v), rest) := by
  have hshape : renderEntry o (k, v) ++ rest =
      '"' :: (k.data ++ '"' :: (':' :: ((if o.compact then ([] : List Char) else [' ']) ++
        (renderValue o v ++ rest)))) := by
    rw [show renderEntry o (k, v) = '"' :: k.data ++ '"' :: colonChars o ++ renderValue o v from rfl,
        colonChars_eq]
    simp [List.append_assoc]
  rw [hshape]
  have hmem : ∀ c ∈ k.data, (c != '"') = true := by
    intro c hc
    simp only [bne_iff_ne, ne_eq]
    intro heq
    exact hk (heq ▸ hc)
  have hhn : headNot (fun c => c != '"')
      ('"' :: (':' :: ((if o.compact then ([] : List Char) else [' ']) ++
        (renderValue o v ++ rest)))) := by simp [headNot]
  obtain ⟨ht, hd⟩ := takeWhile_append_all hmem hhn
  show (match (k.data ++ '"' :: (':' :: _)).dropWhile (fun c => c != '"') with
    | '"' :: r2 =>
      match r2 with
      | ':' :: r3 => do
        let (v', r4) ← parseValue (skipSpaces r3)
        Except.ok ((String.mk ((k.data ++ '"' :: (':' :: _)).takeWhile (fun c => c != '"')), v'), r4)
      | _ => (Except.error (ErrorInfo.synErr "expected colon in dict entry") : Except ErrorInfo ((String × Value) × List Char))
    | _ => Except.error (ErrorInfo.unexpectedEof "closing quote")) = Except.ok ((k, v), rest)
  rw [ht, hd]
  show (do
    let (v', r4) ← parseValue (skipSpaces ((if o.compact then ([] : List Char) else [' ']) ++
      (renderValue o v ++ rest)))
    Except.ok ((String.mk k.data, v'), r4)) = _
  rw [skipSpaces_sepTail (renderValue_headNot_space o v _), parseValue_complete hv hr]
  cases k
  rfl

theorem stops_entry_rest (o : FormatterOptions) (es : List (String × Value)) (X : List Char) :
    stops (renderEntriesTail o es ++ X) := stops_renderEntriesTail o es X

theorem parseEntriesTail_complete {o : FormatterOptions} :
    ∀ (es : List (String × Value)) (fuel : Nat) (rest : List Char),
      (∀ e ∈ es, '"' ∉ e.1.data ∧ WFValue e.2) → es.length < fuel →
      parseEntriesTail fuel (renderEntriesTail o es ++ rest) = .ok (es, rest) := by
  intro es
  induction es with
  | nil =>
    intro fuel rest _ hf
    cases fuel with
    | zero => omega
    | succ f => rfl
  | cons e es ih =>
    intro fuel rest hwf hf
    cases fuel with
    | zero => omega
    | succ f =>
      have hshape : renderEntriesTail o (e :: es) ++ rest =
          ',' :: ((if o.compact then ([] : List Char) else [' ']) ++
            (renderEntry o e ++ (renderEntriesTail o es ++ rest))) := by
        rw [show renderEntriesTail o (e :: es) =
            sepChars o ++ renderEntry o e ++ renderEntriesTail o es from rfl, sepChars_eq]
        simp [List.append_assoc]
      rw [hshape]
      show (do
        let (e', r2) ← parseEntry (skipSpaces ((if o.compact then ([] : List Char) else [' ']) ++
          (renderEntry o e ++ (renderEntriesTail o es ++ rest))))
        let (es', r3) ← parseEntriesTail f r2
        Except.ok (e' :: es', r3)) = Except.ok (e :: es, rest)
      have hsk : skipSpaces ((if o.compact then ([] : List Char) else [' ']) ++
          (renderEntry o e ++ (renderEntriesTail o es ++ rest))) =
          renderEntry o e ++ (renderEntriesTail o es ++ rest) := by
        refine skipSpaces_sepTail ?_
        rw [show renderEntry o e = '"' :: e.1.data ++ '"' :: colonChars o ++ renderValue o e.2 from rfl]
        simp only [List.cons_append, List.append_assoc]
        simp [headNot]
      rw [hsk]
      obtain ⟨e1, e2⟩ := e
      rw [parseEntry_complete (hwf (e1, e2) (by simp)).1 (hwf (e1, e2) (by simp)).2
        (stops_renderEntriesTail o es rest)]
      simp only [except_bind_ok]
      rw [ih f rest (fun x hx => hwf x (by simp [hx])) (by simp at hf; omega)]
      simp only [except_bind_ok]

theorem parseComposite_dict_complete {o : FormatterOptions} {es : List (String × Value)}
    {rest : List Char} (hwf : ∀ e ∈ es, '"' ∉ e.1.data ∧ WFValue e.2) :
    parseComposite (renderDictFull o es ++ rest) = .ok (.dictV es, rest) := by
  cases es with
  | nil =>
    show parseComposite ('{' :: ('}' :: rest)) = _
    rfl
  | cons e es =>
    have hshape : renderDictFull o (e :: es) ++ rest =
        '{' :: (renderEntry o e ++ (renderEntriesTail o es ++ rest)) := by
      simp [renderDictFull, List.append_assoc]
    rw [hshape]
    show (do
      let (es', r2) ← parseDictBody (renderEntry o e ++ (renderEntriesTail o es ++ rest))
      Except.ok (CompositeValue.dictV es', r2)) = _
    have hbody : parseDictBody (renderEntry o e ++ (renderEntriesTail o es ++ rest)) =
        .ok (e :: es, rest) := by
      rw [parseDictBody.eq_def]
      split
      · rename_i r heq
        rw [show renderEntry o e = '"' :: e.1.data ++ '"' :: colonChars o ++ renderValue o e.2 from rfl] at heq
        simp at heq
      · rename_i hno
        obtain ⟨e1, e2⟩ := e
        rw [parseEntry_complete (hwf (e1, e2) (by simp)).1 (hwf (e1, e2) (by simp)).2
          (stops_renderEntriesTail o es rest)]
        simp only [except_bind_ok]
        have hlen : es.length < (renderEntriesTail o es ++ rest).length := by
          have := renderEntriesTail_length o es
          simp only [List.length_append]
          omega
        rw [parseEntriesTail_complete es _ rest (fun x hx => hwf x (by simp [hx])) hlen]
        rfl
    rw [hbody]
    simp only [except_bind_ok]

theorem parseComposite_complete {o : FormatterOptions} {cv : CompositeValue}
    {rest : List Char} (hwf : WFComposite cv) (hr : stops rest) :
    parseComposite (renderComposite o cv ++ rest) = .ok (cv, rest) := by
  cases cv with
  | listV vs => exact parseComposite_list_complete hwf
  | dictV es => exact parseComposite_dict_complete hwf
  | single v =>
    rw [parseComposite.eq_def]
    split
    · rename_i r heq
      exact absurd heq (renderValue_head_notin (by decide) (by decide) (by decide)
        (by decide) (by decide) _ _)
    · rename_i r heq
      exact absurd heq (renderValue_head_notin (by decide) (by decide) (by decide)
        (by decide) (by decide) _ _)
    · rename_i h1 h2
      rw [show renderComposite o (CompositeValue.single v) = renderValue o v from rfl,
        parseValue_complete hwf hr]
      rfl

theorem stops_ne_eq {rest : List Char} (hr : stops rest) : ∀ t, rest ≠ '=' :: t := by
  intro t heq
  subst heq
  rcases hr with h | h | h | h <;> simp_all

theorem parseParam_eq_value {cs : List Char}
    (h : ∀ t, cs.dropWhile isIdentChar ≠ '=' :: t) :
    parseParam cs = (do
      let (v, r) ← parseValue cs
      Except.ok (Parameter.basic v, r)) := by
  rw [parseParam.eq_def]
  split
  · rfl
  · rename_i a b c hdrop hguard
    exact absurd hdrop (h c)
  · rfl

theorem ident_ne_space {c : Char} (hc : isIdentChar c = true) : (c == ' ') = false := by
  simp only [beq_eq_false_iff_ne, ne_eq]
  intro heq
  subst heq
  exact absurd hc (by decide)

theorem dropWhile_ident_of_all {L rest : List Char}
    (hL : ∀ c ∈ L, isIdentChar c = true) (hr : headNot isIdentChar rest) :
    (L ++ rest).dropWhile isIdentChar = rest :=
  (takeWhile_append_all hL hr).2

theorem renderInt_all_ident {fmt : NumberFormat} {i : Int} (h : ¬ i < 0) :
    ∀ c ∈ renderInt fmt i, isIdentChar c = true := by
  intro c hc
  unfold renderInt at hc
  rw [if_neg h] at hc
  cases fmt with
  | hex =>
    simp only [List.mem_cons] at hc
    rcases hc with rfl | rfl | hm
    · decide
    · decide
    · exact baseDigit_ident (renderNat_all_digits (by omega) (by omega) c hm)
  | octal =>
    simp only [List.mem_cons] at hc
    rcases hc with rfl | rfl | hm
    · decide
    · decide
    · exact baseDigit_ident (renderNat_all_digits (by omega) (by omega) c hm)
  | binary =>
    simp only [List.mem_cons] at hc
    rcases hc with rfl | rfl | hm
    · decide
    · decide
    · exact baseDigit_ident (renderNat_all_digits (by omega) (by omega) c hm)
  | unknown => exact baseDigit_ident (renderNat_all_digits (by omega) (by omega) c hc)
  | decimal => exact baseDigit_ident (renderNat_all_digits (by omega) (by omega) c hc)

theorem parseParam_basic_complete {o : FormatterOptions} {v : Value} {rest : List Char}
    (hv : WFValue v) (hr : stops rest) :
    parseParam (renderValue o v ++ rest) = .ok (.basic v, rest) := by
  have hdrop : ∀ t, (renderValue o v ++ rest).dropWhile isIdentChar ≠ '=' :: t := by
    cases v with
    | strV s =>
      intro t heq
      rw [show renderValue o (.strV s) ++ rest = '"' :: (s.data ++ '"' :: rest) from by
        simp [renderValue], List.dropWhile_cons_of_neg (by decide)] at heq
      simp at heq
    | boolV b =>
      cases b with
      | true =>
        rw [show renderValue o (.boolV true) = "true".data from rfl,
          dropWhile_ident_of_all (by decide) (stops_not_ident hr)]
        exact stops_ne_eq hr
      | false =>
        rw [show renderValue o (.boolV false) = "false".data from rfl,
          dropWhile_ident_of_all (by decide) (stops_not_ident hr)]
        exact stops_ne_eq hr
    | intV i =>
      by_cases hneg : i < 0
      · intro t heq
        rw [show renderValue o (.intV i) = renderInt o.number_format i from rfl] at heq
        rw [show renderInt o.number_format i = '-' :: (match o.number_format with
          | NumberFormat.hex => '0' :: 'x' :: renderNat 16 i.natAbs
          | NumberFormat.octal => '0' :: 'o' :: renderNat 8 i.natAbs
          | NumberFormat.binary => '0' :: 'b' :: renderNat 2 i.natAbs
          | _ => renderNat 10 i.natAbs) from by
            unfold renderInt; rw [if_pos hneg]] at heq
        rw [List.cons_append, List.dropWhile_cons_of_neg (by decide)] at heq
        simp at heq
      · rw [show renderValue o (.intV i) = renderInt o.number_format i from rfl,
          dropWhile_ident_of_all (renderInt_all_ident hneg) (stops_not_ident hr)]
        exact stops_ne_eq hr
    | floatV f =>
      obtain ⟨fneg, ip, frac⟩ := f
      cases fneg with
      | true =>
        intro t heq
        rw [show renderValue o (.floatV ⟨true, ip, frac⟩) ++ rest =
          '-' :: (renderNat 10 ip ++ '.' :: (frac.map finDigitChar ++ rest)) from by
            simp [renderValue, renderFloat], List.dropWhile_cons_of_neg (by decide)] at heq
        simp at heq
      | false =>
        intro t heq
        rw [show renderValue o (.floatV ⟨false, ip, frac⟩) ++ rest =
          renderNat 10 ip ++ ('.' :: (frac.map finDigitChar ++ rest)) from by
            simp [renderValue, renderFloat],
          dropWhile_ident_of_all
            (fun c hc => baseDigit_ident (renderNat_all_digits (by omega) (by omega) c hc))
            (by simp only [headNot]; decide),
          ] at heq
        simp at heq
  rw [parseParam_eq_value hdrop, parseValue_complete hv hr]
  rfl

theorem parseParam_composite_complete {o : FormatterOptions} {n : String}
    {cv : CompositeValue} {rest : List Char}
    (hn : IdentStr n) (hcv : WFComposite cv) (hr : stops rest) :
    parseParam (renderParam o (.composite n cv) ++ rest) = .ok (.composite n cv, rest) := by
  have hshape : renderParam o (.composite n cv) ++ rest =
      n.data ++ ('=' :: (renderComposite o cv ++ rest)) := by
    simp [renderParam, List.append_assoc]
  have hpair := @takeWhile_append_all isIdentChar n.data
    ('=' :: (renderComposite o cv ++ rest)) hn.2 (by simp only [headNot]; decide)
  rw [hshape, parseParam.eq_def]
  split
  · rename_i x y htake
    rw [hpair.1] at htake
    exact absurd htake hn.1
  · rename_i a b c hdrop hguard
    rw [hpair.2] at hdrop
    obtain ⟨h1, h2⟩ := List.cons_eq_cons.mp hdrop
    rw [← h2, hpair.1, parseComposite_complete hcv hr]
    have hmk : String.mk n.data = n := by cases n; rfl
    rw [hmk]
    rfl
  · rename_i x y hguard1 hguard2
    exact absurd hpair.2 (by
      intro hcontra
      exact hguard2 (renderComposite o cv ++ rest) hcontra)

theorem parseParam_complete {o : FormatterOptions} {p : Parameter} {rest : List Char}
    (hp : WFParam p) (hr : stops rest) :
    parseParam (renderParam o p ++ rest) = .ok (p, rest) := by
  cases p with
  | basic v => exact parseParam_basic_complete hp hr
  | composite n cv => exact parseParam_composite_complete hp.1 hp.2 hr

theorem renderParam_headNot_space {o : FormatterOptions} {p : Parameter}
    (hp : WFParam p) (X : List Char) :
    headNot (fun c => c == ' ') (renderParam o p ++ X) := by
  cases p with
  | basic v => exact renderValue_headNot_space o v X
  | composite n cv =>
    obtain ⟨c, t, hct⟩ := List.exists_cons_of_ne_nil hp.1.1
    have hc : isIdentChar c = true := hp.1.2 c (by rw [hct]; simp)
    rw [show renderParam o (.composite n cv) = n.data ++ '=' :: renderComposite o cv from rfl,
      hct]
    exact ident_ne_space hc

theorem parseParamsTail_complete {o : FormatterOptions} :
    ∀ (ps : List Parameter) (fuel : Nat) (rest : List Char),
      (∀ p ∈ ps, WFParam p) → ps.length < fuel →
      parseParamsTail fuel (renderParamsTail o ps ++ rest) = .ok (ps, rest) := by
  intro ps
  induction ps with
  | nil =>
    intro fuel rest _ hf
    cases fuel with
    | zero => omega
    | succ f => rfl
  | cons p ps ih =>
    intro fuel rest hwf hf
    cases fuel with
    | zero => omega
    | succ f =>
      have hshape : renderParamsTail o (p :: ps) ++ rest =
          ',' :: ((if o.compact then ([] : List Char) else [' ']) ++
            (renderParam o p ++ (renderParamsTail o ps ++ rest))) := by
        rw [show renderParamsTail o (p :: ps) =
            sepChars o ++ renderParam o p ++ renderParamsTail o ps from rfl, sepChars_eq]
        simp [List.append_assoc]
      rw [hshape]
      show (do
        let (p', r2) ← parseParam (skipSpaces ((if o.compact then ([] : List Char) else [' ']) ++
          (renderParam o p ++ (renderParamsTail o ps ++ rest))))
        let (ps', r3) ← parseParamsTail f r2
        Except.ok (p' :: ps', r3)) = Except.ok (p :: ps, rest)
      rw [skipSpaces_sepTail (renderParam_headNot_space (hwf p (by simp)) _),
        parseParam_complete (hwf p (by simp)) (stops_renderParamsTail o ps rest)]
      simp only [except_bind_ok]
      rw [ih f rest (fun x hx => hwf x (by simp [hx])) (by simp at hf; omega)]
      simp only [except_bind_ok]

theorem parseCmdLine_nil {name : String} (hn : IdentStr name) :
    parseCmdLine name.data = .ok ⟨name, []⟩ := by
  have hmk : String.mk name.data = name := by cases name; rfl
  have hpair : name.data.takeWhile isIdentChar = name.data ∧
      name.data.dropWhile isIdentChar = [] := by
    have := @takeWhile_append_all isIdentChar name.data [] hn.2 trivial
    simpa using this
  rw [parseCmdLine.eq_def]
  split
  · rename_i htake
    rw [hpair.1] at htake
    exact absurd htake hn.1
  · rename_i hguard
    rw [hpair.2, hpair.1, hmk]

theorem parseCmdLine_cons {o : FormatterOptions} {name : String} {p : Parameter}
    {rest : List Parameter}
    (hn : IdentStr name) (hps : ∀ q ∈ p :: rest, WFParam q) :
    parseCmdLine (name.data ++ ('(' :: (renderParam o p ++ renderParamsTail o rest))) =
      .ok ⟨name, p :: rest⟩ := by
  have hmk : String.mk name.data = name := by cases name; rfl
  have hpair := @takeWhile_append_all isIdentChar name.data
    ('(' :: (renderParam o p ++ renderParamsTail o rest)) hn.2 (by simp only [headNot]; decide)
  rw [parseCmdLine.eq_def]
  split
  · rename_i htake
    rw [hpair.1] at htake
    exact absurd htake hn.1
  · rename_i hguard
    rw [hpair.2]
    show (do
      let (p', r2) ← parseParam (renderParam o p ++ renderParamsTail o rest)
      let (ps', r3) ← parseParamsTail (renderParam o p ++ renderParamsTail o rest).length r2
      match r3 with
      | [] => Except.ok (Command.mk (String.mk (List.takeWhile isIdentChar
          (name.data ++ ('(' :: (renderParam o p ++ renderParamsTail o rest))))) (p' :: ps'))
      | _ => Except.error (.unexpectedInput (String.mk r3))) = Except.ok ⟨name, p :: rest⟩
    rw [show renderParam o p ++ renderParamsTail o rest =
        renderParam o p ++ (renderParamsTail o rest ++ []) from by simp]
    rw [parseParam_complete (hps p (by simp)) (stops_renderParamsTail o rest [])]
    simp only [except_bind_ok]
    have hlen : rest.length < (renderParam o p ++ (renderParamsTail o rest ++ [])).length := by
      have h1 := renderParam_length_pos o p
      have h2 := renderParamsTail_length o rest
      simp only [List.length_append]
      omega
    rw [parseParamsTail_complete rest _ [] (fun x hx => hps x (by simp [hx])) hlen]
    simp only [except_bind_ok]
    rw [List.append_nil, hpair.1, hmk]

theorem ident_ne_char {c x : Char} (hc : isIdentChar c = true) (hx : isIdentChar x = false) :
    (c == x) = false := by
  simp only [beq_eq_false_iff_ne, ne_eq]
  intro heq
  subst heq
  rw [hc] at hx
  exact absurd hx (by decide)

theorem countLeadMarkers_markers {t : Nat} {X : List Char}
    (hX : headNot (fun c => c == '#') X) :
    countLeadMarkers (List.replicate t '#' ++ X) = t := by
  unfold countLeadMarkers
  have hall : ∀ c ∈ List.replicate t '#', (c == '#') = true := by
    intro c hc
    simp [List.eq_of_mem_replicate hc]
  rw [(takeWhile_append_all hall hX).1, List.length_replicate]

theorem identStr_ne_sentinels {name : String} (hn : IdentStr name) :
    name ≠ textName ∧ name ≠ annoName ∧ name ≠ numberName := by
  refine ⟨?_, ?_, ?_⟩ <;>
    · intro heq
      subst heq
      exact absurd (hn.2 '@' (by decide)) (by decide)

theorem parseNumWhole_renderInt {fmt : NumberFormat} {i : Int} {rest : List Char}
    (hr : stops rest) :
    parseNumWhole (renderInt fmt i ++ rest) = .ok (.intV i, rest) := by
  by_cases hneg : i < 0
  · cases fmt
    · rw [show renderInt NumberFormat.unknown i ++ rest =
        '-' :: (renderNat 10 i.natAbs ++ rest) from by simp [renderInt, hneg]]
      show parseNumAfterSign true (renderNat 10 i.natAbs ++ rest) = _
      rw [parseNumAfterSign_decimal hr, applySign_natAbs_neg hneg]
    · rw [show renderInt NumberFormat.decimal i ++ rest =
        '-' :: (renderNat 10 i.natAbs ++ rest) from by simp [renderInt, hneg]]
      show parseNumAfterSign true (renderNat 10 i.natAbs ++ rest) = _
      rw [parseNumAfterSign_decimal hr, applySign_natAbs_neg hneg]
    · rw [show renderInt NumberFormat.hex i ++ rest =
        '-' :: ('0' :: 'x' :: (renderNat 16 i.natAbs ++ rest)) from by simp [renderInt, hneg]]
      show parseNumAfterSign true ('0' :: 'x' :: (renderNat 16 i.natAbs ++ rest)) = _
      rw [parseNumAfterSign_hex hr, applySign_natAbs_neg hneg]
    · rw [show renderInt NumberFormat.octal i ++ rest =
        '-' :: ('0' :: 'o' :: (renderNat 8 i.natAbs ++ rest)) from by simp [renderInt, hneg]]
      show parseNumAfterSign true ('0' :: 'o' :: (renderNat 8 i.natAbs ++ rest)) = _
      rw [parseNumAfterSign_octal hr, applySign_natAbs_neg hneg]
    · rw [show renderInt NumberFormat.binary i ++ rest =
        '-' :: ('0' :: 'b' :: (renderNat 2 i.natAbs ++ rest)) from by simp [renderInt, hneg]]
      show parseNumAfterSign true ('0' :: 'b' :: (renderNat 2 i.natAbs ++ rest)) = _
      rw [parseNumAfterSign_binary hr, applySign_natAbs_neg hneg]
  · cases fmt
    · rw [show renderInt NumberFormat.unknown i ++ rest =
        renderNat 10 i.natAbs ++ rest from by simp [renderInt, hneg]]
      obtain ⟨c, t, hct⟩ := List.exists_cons_of_ne_nil
        (renderNat_ne_nil (b := 10) (n := i.natAbs) (by omega))
      have hcd : isBaseDigit 10 c = true :=
        renderNat_all_digits (by omega) (by omega) c (by rw [hct]; simp)
      rw [parseNumWhole.eq_def]
      split
      · rename_i r heq
        rw [hct] at heq
        simp only [List.cons_append, List.cons_eq_cons] at heq
        exact absurd heq.1 (baseDigit_ne hcd (by decide))
      · rw [parseNumAfterSign_decimal hr, applySign_natAbs_pos hneg]
    · rw [show renderInt NumberFormat.decimal i ++ rest =
        renderNat 10 i.natAbs ++ rest from by simp [renderInt, hneg]]
      obtain ⟨c, t, hct⟩ := List.exists_cons_of_ne_nil
        (renderNat_ne_nil (b := 10) (n := i.natAbs) (by omega))
      have hcd : isBaseDigit 10 c = true :=
        renderNat_all_digits (by omega) (by omega) c (by rw [hct]; simp)
      rw [parseNumWhole.eq_def]
      split
      · rename_i r heq
        rw [hct] at heq
        simp only [List.cons_append, List.cons_eq_cons] at heq
        exact absurd heq.1 (baseDigit_ne hcd (by decide))
      · rw [parseNumAfterSign_decimal hr, applySign_natAbs_pos hneg]
    · rw [show renderInt NumberFormat.hex i ++ rest =
        '0' :: 'x' :: (renderNat 16 i.natAbs ++ rest) from by simp [renderInt, hneg]]
      show parseNumAfterSign false ('0' :: 'x' :: (renderNat 16 i.natAbs ++ rest)) = _
      rw [parseNumAfterSign_hex hr, applySign_natAbs_pos hneg]
    · rw [show renderInt NumberFormat.octal i ++ rest =
        '0' :: 'o' :: (renderNat 8 i.natAbs ++ rest) from by simp [renderInt, hneg]]
      show parseNumAfterSign false ('0' :: 'o' :: (renderNat 8 i.natAbs ++ rest)) = _
      rw [parseNumAfterSign_octal hr, applySign_natAbs_pos hneg]
    · rw [show renderInt NumberFormat.binary i ++ rest =
        '0' :: 'b' :: (renderNat 2 i.natAbs ++ rest) from by simp [renderInt, hneg]]
      show parseNumAfterSign false ('0' :: 'b' :: (renderNat 2 i.natAbs ++ rest)) = _
      rw [parseNumAfterSign_binary hr, applySign_natAbs_pos hneg]

theorem intLitWhole_renderInt {fmt : NumberFormat} {i : Int} :
    intLitWhole? (renderInt fmt i) = some i := by
  unfold intLitWhole?
  rw [show renderInt fmt i = renderInt fmt i ++ [] from by simp,
    @parseNumWhole_renderInt fmt i [] trivial]

theorem renderInt_head_not_marker (fmt : NumberFormat) (i : Int) :
    headNot (fun c => c == '#') (renderInt fmt i) := by
  by_cases hneg : i < 0
  · rw [show renderInt fmt i = '-' :: (match fmt with
      | NumberFormat.hex => '0' :: 'x' :: renderNat 16 i.natAbs
      | NumberFormat.octal => '0' :: 'o' :: renderNat 8 i.natAbs
      | NumberFormat.binary => '0' :: 'b' :: renderNat 2 i.natAbs
      | _ => renderNat 10 i.natAbs) from by unfold renderInt; rw [if_pos hneg]]
    show ('-' == '#') = false
    decide
  · cases fmt
    · rw [show renderInt NumberFormat.unknown i = renderNat 10 i.natAbs from by
        simp [renderInt, hneg]]
      obtain ⟨c, t, hct⟩ := List.exists_cons_of_ne_nil
        (renderNat_ne_nil (b := 10) (n := i.natAbs) (by omega))
      have hcd : isBaseDigit 10 c = true :=
        renderNat_all_digits (by omega) (by omega) c (by rw [hct]; simp)
      rw [hct]
      show (c == '#') = false
      simp only [beq_eq_false_iff_ne, ne_eq]
      exact baseDigit_ne hcd (by decide)
    · rw [show renderInt NumberFormat.decimal i = renderNat 10 i.natAbs from by
        simp [renderInt, hneg]]
      obtain ⟨c, t, hct⟩ := List.exists_cons_of_ne_nil
        (renderNat_ne_nil (b := 10) (n := i.natAbs) (by omega))
      have hcd : isBaseDigit 10 c = true :=
        renderNat_all_digits (by omega) (by omega) c (by rw [hct]; simp)
      rw [hct]
      show (c == '#') = false
      simp only [beq_eq_false_iff_ne, ne_eq]
      exact baseDigit_ne hcd (by decide)
    · rw [show renderInt NumberFormat.hex i = '0' :: 'x' :: renderNat 16 i.natAbs from by
        simp [renderInt, hneg]]
      show ('0' == '#') = false
      decide
    · rw [show renderInt NumberFormat.octal i = '0' :: 'o' :: renderNat 8 i.natAbs from by
        simp [renderInt, hneg]]
      show ('0' == '#') = false
      decide
    · rw [show renderInt NumberFormat.binary i = '0' :: 'b' :: renderNat 2 i.natAbs from by
        simp [renderInt, hneg]]
      show ('0' == '#') = false
      decide

theorem countLead_of_headNot {X : List Char} (h : headNot (fun c => c == '#') X) :
    countLeadMarkers X = 0 := by
  cases X with
  | nil => rfl
  | cons c t =>
    have hc : (c == '#') = false := h
    unfold countLeadMarkers
    rw [List.takeWhile_cons_of_neg (by simp [hc])]
    rfl

theorem drop_replicate_append (t : Nat) (X : List Char) :
    (List.replicate t '#' ++ X).drop t = X := by
  have := List.drop_left (List.replicate t '#') X
  rwa [List.length_replicate] at this

theorem parseLine_text {cfg : ParserConfig} {s : String}
    (hth : 1 ≤ cfg.command_threshold) (hm : countLeadMarkers s.data = 0)
    (hnum : cfg.convert_number_command = true → intLitWhole? s.data = Option.none) :
    parseLine cfg s = .ok (Command.newText s) := by
  simp only [parseLine]
  rw [hm, if_neg (by omega), if_neg (by omega)]
  cases hcv : cfg.convert_number_command with
  | true => rw [if_pos rfl, hnum hcv]
  | false => rw [if_neg (by simp)]

theorem parseLine_anno {cfg : ParserConfig} {s : String}
    (hm1 : 1 ≤ countLeadMarkers s.data) (hm2 : countLeadMarkers s.data < cfg.command_threshold) :
    parseLine cfg s = .ok (Command.newAnno s) := by
  simp only [parseLine]
  rw [if_neg (by omega), if_pos (by omega)]

theorem parseLine_number {cfg : ParserConfig} {s : String} {n : Int}
    (hth : 1 ≤ cfg.command_threshold) (hm : countLeadMarkers s.data = 0)
    (hconv : cfg.convert_number_command = true) (hlit : intLitWhole? s.data = some n) :
    parseLine cfg s = .ok (Command.newNumber n) := by
  simp only [parseLine]
  rw [hm, if_neg (by omega), if_neg (by omega), if_pos hconv, hlit]

theorem parseLine_cmd {cfg : ParserConfig} {s : String}
    (hm : cfg.command_threshold ≤ countLeadMarkers s.data) :
    parseLine cfg s = parseCmdLine (s.data.drop (countLeadMarkers s.data)) := by
  simp only [parseLine]
  rw [if_pos hm]

theorem write_parse_complete {cfg : ParserConfig} {wc : WriterConfig} {c : Command}
    (hth : 1 ≤ cfg.command_threshold)
    (hwc : wc.command_threshold = cfg.command_threshold)
    (hwf : WFCommand cfg c) :
    parseLine cfg (writeCommandLine wc c) = .ok c := by
  obtain ⟨name, params⟩ := c
  rcases hwf with ⟨hname, s, hps, hm, hnum⟩ | ⟨hname, s, hps, hm1, hm2⟩ |
    ⟨hname, hconv, n, hps⟩ | ⟨hn, hps⟩
  · simp only at hname hps
    subst hname
    subst hps
    have hwrite : writeCommandLine wc ⟨textName, [.basic (.strV s)]⟩ = s := by
      unfold writeCommandLine
      rw [if_pos rfl]
      rfl
    rw [hwrite, parseLine_text hth hm hnum]
    rfl
  · simp only at hname hps
    subst hname
    subst hps
    have hwrite : writeCommandLine wc ⟨annoName, [.basic (.strV s)]⟩ = s := by
      unfold writeCommandLine
      rw [if_neg (show ¬ annoName = textName by decide), if_pos rfl]
      rfl
    rw [hwrite, parseLine_anno hm1 hm2]
    rfl
  · simp only at hname hps
    subst hname
    subst hps
    have hwrite : writeCommandLine wc ⟨numberName, [.basic (.intV n)]⟩ =
        String.mk (renderInt (resolveOptions wc numberName).number_format n) := by
      unfold writeCommandLine
      rw [if_neg (show ¬ numberName = textName by decide),
        if_neg (show ¬ numberName = annoName by decide), if_pos rfl]
    have hm0 : countLeadMarkers (String.mk (renderInt
        (resolveOptions wc numberName).number_format n)).data = 0 :=
      countLead_of_headNot (renderInt_head_not_marker _ n)
    have hlit0 : intLitWhole? (String.mk (renderInt
        (resolveOptions wc numberName).number_format n)).data = some n :=
      intLitWhole_renderInt
    rw [hwrite, parseLine_number hth hm0 hconv hlit0]
    rfl
  · simp only at hn hps
    obtain ⟨hs1, hs2, hs3⟩ := identStr_ne_sentinels hn
    obtain ⟨nc, nt, hnct⟩ := List.exists_cons_of_ne_nil hn.1
    have hnc : isIdentChar nc = true := hn.2 nc (by rw [hnct]; simp)
    have hheadX : ∀ (Y : List Char), headNot (fun c => c == '#') (name.data ++ Y) := by
      intro Y
      rw [hnct]
      exact ident_ne_char hnc (by decide)
    have hwrite : writeCommandLine wc ⟨name, params⟩ =
        String.mk (renderCmdCore (resolveOptions wc name) wc.command_threshold ⟨name, params⟩) := by
      unfold writeCommandLine
      rw [if_neg hs1, if_neg hs2, if_neg hs3]
    rw [hwrite]
    cases params with
    | nil =>
      have hshape : renderCmdCore (resolveOptions wc name) wc.command_threshold ⟨name, []⟩ =
          List.replicate wc.command_threshold '#' ++ (name.data ++ []) := by
        simp [renderCmdCore]
      have hcount : countLeadMarkers (String.mk (renderCmdCore (resolveOptions wc name)
          wc.command_threshold ⟨name, []⟩)).data = wc.command_threshold := by
        show countLeadMarkers (renderCmdCore (resolveOptions wc name)
          wc.command_threshold ⟨name, []⟩) = wc.command_threshold
        rw [hshape]
        exact countLeadMarkers_markers (hheadX [])
      rw [parseLine_cmd (by rw [hcount, hwc]), hcount]
      show parseCmdLine ((renderCmdCore (resolveOptions wc name)
        wc.command_threshold ⟨name, []⟩).drop wc.command_threshold) = _
      rw [hshape, drop_replicate_append, List.append_nil]
      exact parseCmdLine_nil hn
    | cons p rest =>
      have hshape : renderCmdCore (resolveOptions wc name) wc.command_threshold ⟨name, p :: rest⟩ =
          List.replicate wc.command_threshold '#' ++
            (name.data ++ ('(' :: (renderParam (resolveOptions wc name) p ++
              renderParamsTail (resolveOptions wc name) rest))) := by
        simp [renderCmdCore, List.append_assoc]
      have hcount : countLeadMarkers (String.mk (renderCmdCore (resolveOptions wc name)
          wc.command_threshold ⟨name, p :: rest⟩)).data = wc.command_threshold := by
        show countLeadMarkers (renderCmdCore (resolveOptions wc name)
          wc.command_threshold ⟨name, p :: rest⟩) = wc.command_threshold
        rw [hshape]
        exact countLeadMarkers_markers (hheadX _)
      rw [parseLine_cmd (by rw [hcount, hwc]), hcount]
      show parseCmdLine ((renderCmdCore (resolveOptions wc name)
        wc.command_threshold ⟨name, p :: rest⟩).drop wc.command_threshold) = _
      rw [hshape, drop_replicate_append]
      exact parseCmdLine_cons hn hps

theorem parseNumAfterSign_sound {neg : Bool} {cs : List Char} {v : Value} {r : List Char}
    (h : parseNumAfterSign neg cs = .ok (v, r)) : WFValue v := by
  unfold parseNumAfterSign at h
  split at h
  · split at h
    · rw [Except.ok.injEq, Prod.mk.injEq] at h
      obtain ⟨h1, h2⟩ := h
      subst h1
      trivial
    · exact absurd h (by simp)
  · split at h
    · rw [Except.ok.injEq, Prod.mk.injEq] at h
      obtain ⟨h1, h2⟩ := h
      subst h1
      trivial
    · exact absurd h (by simp)
  · split at h
    · rw [Except.ok.injEq, Prod.mk.injEq] at h
      obtain ⟨h1, h2⟩ := h
      subst h1
      trivial
    · exact absurd h (by simp)
  · split at h
    · split at h
      · split at h
        · split_ifs at h with hfr
          · rw [Except.ok.injEq, Prod.mk.injEq] at h
            obtain ⟨h1, h2⟩ := h
            subst h1
            show _ ≠ []
            intro hnil
            simp only at hnil
            rw [hnil] at hfr
            exact hfr rfl
      · rw [Except.ok.injEq, Prod.mk.injEq] at h
        obtain ⟨h1, h2⟩ := h
        subst h1
        trivial
    · exact absurd h (by simp)

theorem bind_eq_ok {α β ε : Type} {e : Except ε α} {f : α → Except ε β} {b : β}
    (h : (e >>= f) = .ok b) : ∃ a, e = .ok a ∧ f a = .ok b := by
  cases e with
  | error ex =>
    exact absurd h (by
      show ¬ (Except.error ex : Except ε α).bind f = Except.ok b
      simp [Except.bind])
  | ok a => exact ⟨a, rfl, h⟩

theorem parseValue_sound {cs : List Char} {v : Value} {r : List Char}
    (h : parseValue cs = .ok (v, r)) : WFValue v := by
  unfold parseValue at h
  split at h
  · exact absurd h (by simp)
  · split at h
    · rw [Except.ok.injEq, Prod.mk.injEq] at h
      obtain ⟨h1, h2⟩ := h
      subst h1
      show '"' ∉ _
      intro hmem
      have := List.mem_takeWhile_imp hmem
      simp at this
    · exact absurd h (by simp)
  · exact parseNumAfterSign_sound h
  · split_ifs at h with h1 h2 h3
    · exact parseNumAfterSign_sound h
    · rw [Except.ok.injEq, Prod.mk.injEq] at h
      obtain ⟨h1, h2⟩ := h
      subst h1
      trivial
    · rw [Except.ok.injEq, Prod.mk.injEq] at h
      obtain ⟨h1, h2⟩ := h
      subst h1
      trivial

theorem parseEntry_sound {cs : List Char} {e : String × Value} {r : List Char}
    (h : parseEntry cs = .ok (e, r)) : '"' ∉ e.1.data ∧ WFValue e.2 := by
  unfold parseEntry at h
  split at h
  · split at h
    · split at h
      · obtain ⟨⟨v0, r0⟩, hpv, hf⟩ := bind_eq_ok h
        rw [Except.ok.injEq, Prod.mk.injEq] at hf
        obtain ⟨h1, h2⟩ := hf
        rw [← h1]
        constructor
        · show '"' ∉ _
          intro hmem
          have := List.mem_takeWhile_imp hmem
          simp at this
        · exact parseValue_sound hpv
      · exact absurd h (by simp)
    · exact absurd h (by simp)
  · exact absurd h (by simp)

theorem parseListTail_sound :
    ∀ (fuel : Nat) {cs : List Char} {vs : List Value} {r : List Char},
      parseListTail fuel cs = .ok (vs, r) → ∀ v ∈ vs, WFValue v := by
  intro fuel
  induction fuel with
  | zero => intro cs vs r h; exact absurd h (by simp [parseListTail])
  | succ f ih =>
    intro cs vs r h
    unfold parseListTail at h
    split at h
    · rw [Except.ok.injEq, Prod.mk.injEq] at h
      rw [← h.1]
      intro v hv
      simp at hv
    · obtain ⟨⟨v0, r0⟩, hpv, hf⟩ := bind_eq_ok h
      obtain ⟨⟨vs0, r1⟩, hpt, hf2⟩ := bind_eq_ok hf
      rw [Except.ok.injEq, Prod.mk.injEq] at hf2
      rw [← hf2.1]
      intro v hv
      rcases List.mem_cons.mp hv with rfl | hm
      · exact parseValue_sound hpv
      · exact ih hpt v hm
    · exact absurd h (by simp)
    · exact absurd h (by simp)

theorem parseListBody_sound {cs : List Char} {vs : List Value} {r : List Char}
    (h : parseListBody cs = .ok (vs, r)) : ∀ v ∈ vs, WFValue v := by
  unfold parseListBody at h
  split at h
  · rw [Except.ok.injEq, Prod.mk.injEq] at h
    rw [← h.1]
    intro v hv
    simp at hv
  · obtain ⟨⟨v0, r0⟩, hpv, hf⟩ := bind_eq_ok h
    obtain ⟨⟨vs0, r1⟩, hpt, hf2⟩ := bind_eq_ok hf
    rw [Except.ok.injEq, Prod.mk.injEq] at hf2
    rw [← hf2.1]
    intro v hv
    rcases List.mem_cons.mp hv with rfl | hm
    · exact parseValue_sound hpv
    · exact parseListTail_sound _ hpt v hm

theorem parseEntriesTail_sound :
    ∀ (fuel : Nat) {cs : List Char} {es : List (String × Value)} {r : List Char},
      parseEntriesTail fuel cs = .ok (es, r) →
      ∀ e ∈ es, '"' ∉ e.1.data ∧ WFValue e.2 := by
  intro fuel
  induction fuel with
  | zero => intro cs es r h; exact absurd h (by simp [parseEntriesTail])
  | succ f ih =>
    intro cs es r h
    unfold parseEntriesTail at h
    split at h
    · rw [Except.ok.injEq, Prod.mk.injEq] at h
      rw [← h.1]
      intro e he
      simp at he
    · obtain ⟨⟨e0, r0⟩, hpe, hf⟩ := bind_eq_ok h
      obtain ⟨⟨es0, r1⟩, hpt, hf2⟩ := bind_eq_ok hf
      rw [Except.ok.injEq, Prod.mk.injEq] at hf2
      rw [← hf2.1]
      intro e he
      rcases List.mem_cons.mp he with rfl | hm
      · exact parseEntry_sound hpe
      · exact ih hpt e hm
    · exact absurd h (by simp)
    · exact absurd h (by simp)

theorem parseDictBody_sound {cs : List Char} {es : List (String × Value)} {r : List Char}
    (h : parseDictBody cs = .ok (es, r)) : ∀ e ∈ es, '"' ∉ e.1.data ∧ WFValue e.2 := by
  unfold parseDictBody at h
  split at h
  · rw [Except.ok.injEq, Prod.mk.injEq] at h
    rw [← h.1]
    intro e he
    simp at he
  · obtain ⟨⟨e0, r0⟩, hpe, hf⟩ := bind_eq_ok h
    obtain ⟨⟨es0, r1⟩, hpt, hf2⟩ := bind_eq_ok hf
    rw [Except.ok.injEq, Prod.mk.injEq] at hf2
    rw [← hf2.1]
    intro e he
    rcases List.mem_cons.mp he with rfl | hm
    · exact parseEntry_sound hpe
    · exact parseEntriesTail_sound _ hpt e hm

theorem parseComposite_sound {cs : List Char} {cv : CompositeValue} {r : List Char}
    (h : parseComposite cs = .ok (cv, r)) : WFComposite cv := by
  unfold parseComposite at h
  split at h
  · obtain ⟨⟨vs0, r0⟩, hb, hf⟩ := bind_eq_ok h
    rw [Except.ok.injEq, Prod.mk.injEq] at hf
    rw [← hf.1]
    exact parseListBody_sound hb
  · obtain ⟨⟨es0, r0⟩, hb, hf⟩ := bind_eq_ok h
    rw [Except.ok.injEq, Prod.mk.injEq] at hf
    rw [← hf.1]
    exact parseDictBody_sound hb
  · obtain ⟨⟨v0, r0⟩, hb, hf⟩ := bind_eq_ok h
    rw [Except.ok.injEq, Prod.mk.injEq] at hf
    rw [← hf.1]
    exact parseValue_sound hb

theorem parseParam_sound {cs : List Char} {p : Parameter} {r : List Char}
    (h : parseParam cs = .ok (p, r)) : WFParam p := by
  unfold parseParam at h
  split at h
  · obtain ⟨⟨v0, r0⟩, hb, hf⟩ := bind_eq_ok h
    rw [Except.ok.injEq, Prod.mk.injEq] at hf
    rw [← hf.1]
    exact parseValue_sound hb
  · rename_i a b c hdrop hguard
    obtain ⟨⟨cv0, r0⟩, hb, hf⟩ := bind_eq_ok h
    rw [Except.ok.injEq, Prod.mk.injEq] at hf
    rw [← hf.1]
    refine ⟨⟨hguard, ?_⟩, parseComposite_sound hb⟩
    intro ch hch
    exact List.mem_takeWhile_imp hch
  · obtain ⟨⟨v0, r0⟩, hb, hf⟩ := bind_eq_ok h
    rw [Except.ok.injEq, Prod.mk.injEq] at hf
    rw [← hf.1]
    exact parseValue_sound hb

theorem parseParamsTail_sound :
    ∀ (fuel : Nat) {cs : List Char} {ps : List Parameter} {r : List Char},
      parseParamsTail fuel cs = .ok (ps, r) → ∀ p ∈ ps, WFParam p := by
  intro fuel
  induction fuel with
  | zero => intro cs ps r h; exact absurd h (by simp [parseParamsTail])
  | succ f ih =>
    intro cs ps r h
    unfold parseParamsTail at h
    split at h
    · rw [Except.ok.injEq, Prod.mk.injEq] at h
      rw [← h.1]
      intro p hp
      simp at hp
    · obtain ⟨⟨p0, r0⟩, hpp, hf⟩ := bind_eq_ok h
      obtain ⟨⟨ps0, r1⟩, hpt, hf2⟩ := bind_eq_ok hf
      rw [Except.ok.injEq, Prod.mk.injEq] at hf2
      rw [← hf2.1]
      intro p hp
      rcases List.mem_cons.mp hp with rfl | hm
      · exact parseParam_sound hpp
      · exact ih hpt p hm
    · exact absurd h (by simp)
    · exact absurd h (by simp)

theorem parseCmdLine_sound {cs : List Char} {c : Command}
    (h : parseCmdLine cs = .ok c) : IdentStr c.name ∧ ∀ p ∈ c.params, WFParam p := by
  unfold parseCmdLine at h
  split at h
  · exact absurd h (by simp)
  · rename_i nm hguard
    have hident : IdentStr (String.mk (cs.takeWhile isIdentChar)) := by
      refine ⟨?_, ?_⟩
      · show cs.takeWhile isIdentChar ≠ []
        intro hnil
        exact hguard hnil
      · intro ch hch
        exact List.mem_takeWhile_imp hch
    split at h
    · rw [Except.ok.injEq] at h
      rw [← h]
      exact ⟨hident, by intro p hp; simp at hp⟩
    · obtain ⟨⟨p0, r0⟩, hpp, hf⟩ := bind_eq_ok h
      obtain ⟨⟨ps0, r1⟩, hpt, hf2⟩ := bind_eq_ok hf
      have hf3 : (match r1 with
        | [] => Except.ok (Command.mk (String.mk (cs.takeWhile isIdentChar)) (p0 :: ps0))
        | x => Except.error (ErrorInfo.unexpectedInput (String.mk r1))) = Except.ok c := hf2
      split at hf3
      · rw [Except.ok.injEq] at hf3
        rw [← hf3]
        refine ⟨hident, ?_⟩
        intro p hp
        rcases List.mem_cons.mp hp with rfl | hm
        · exact parseParam_sound hpp
        · exact parseParamsTail_sound _ hpt p hm
      · exact absurd hf3 (by simp)
    · exact absurd h (by simp)

theorem parseLine_sound {cfg : ParserConfig} {line : String} {c : Command}
    (h : parseLine cfg line = .ok c) : WFCommand cfg c := by
  simp only [parseLine] at h
  split_ifs at h with h1 h2 h3
  · right; right; right
    exact parseCmdLine_sound h
  · rw [Except.ok.injEq] at h
    right; left
    rw [← h]
    exact ⟨rfl, line, rfl, h2, by omega⟩
  · split at h
    · rename_i n heq
      rw [Except.ok.injEq] at h
      right; right; left
      rw [← h]
      exact ⟨rfl, h3, n, rfl⟩
    · rename_i heq
      rw [Except.ok.injEq] at h
      left
      rw [← h]
      exact ⟨rfl, line, rfl, by omega, fun _ => heq⟩
  · have h' : Except.ok (Command.newText line) = Except.ok (α := Command) (ε := ErrorInfo) c := h
    rw [Except.ok.injEq] at h'
    left
    rw [← h']
    exact ⟨rfl, line, rfl, by omega, fun hcv => absurd hcv h3⟩

/-- C1: for every Command producible by the parser under a given
ParserConfig (with a positive command threshold), writing it with a
WriterConfig whose command_threshold matches and re-parsing the
written line under the same ParserConfig yields the same Command:
same name and the same parameter sequence with the same values.  The
writer's per-command formatting options (number base, compact
spacing) may change the surface form but never the parsed value. -/
theorem c1_parse_write_roundtrip (cfg : ParserConfig) (wc : WriterConfig)
    (hth : 1 ≤ cfg.command_threshold)
    (hwc : wc.command_threshold = cfg.command_threshold)
    (line : String) (c : Command)
    (hparse : parseLine cfg line = .ok c) :
    parseLine cfg (writeCommandLine wc c) = .ok c :=
  write_parse_complete hth hwc (parseLine_sound hparse)

/-- Witness for C1 at a concrete input: the command line with marker
threshold 1 carrying one composite parameter round-trips. -/
theorem c1_parse_write_roundtrip_witness :
    (1 ≤ (ParserConfig.mk 1 false true).command_threshold ∧
     (WriterConfig.mk defaultOptions [] 1).command_threshold =
       (ParserConfig.mk 1 false true).command_threshold ∧
     parseLine (ParserConfig.mk 1 false true) "#a(x=1)" =
       .ok ⟨"a", [.composite "x" (.single (.intV 1))]⟩) ∧
    parseLine (ParserConfig.mk 1 false true)
      (writeCommandLine (WriterConfig.mk defaultOptions [] 1)
        ⟨"a", [.composite "x" (.single (.intV 1))]⟩) =
      .ok ⟨"a", [.composite "x" (.single (.intV 1))]⟩ :=
  ⟨⟨by decide, rfl, by rfl⟩,
   c1_parse_write_roundtrip (ParserConfig.mk 1 false true)
     (WriterConfig.mk defaultOptions [] 1) (by decide) rfl "#a(x=1)"
     ⟨"a", [.composite "x" (.single (.intV 1))]⟩ (by rfl)⟩

/-- C2 (code bug): the claim and the field's own doc comment say the
default effective configuration has convert_number_command = true,
but PyParserConfig derives Default, whose bool default is false; so
Parser.new with config = None yields command_threshold = 1,
skip_annotations = false and convert_number_command = false, and a
bare numeric line parses as a text command instead of a number
command. -/
theorem c2_default_config_convert_number_false :
    parserNewEffectiveConfig Option.none = ⟨1, false, false⟩ ∧
    (parserNewEffectiveConfig Option.none).convert_number_command ≠ true ∧
    parseLine (parserNewEffectiveConfig Option.none) "42" = .ok (Command.newText "42") ∧
    parseLine ⟨1, false, true⟩ "42" = .ok (Command.newNumber 42) :=
  ⟨rfl, by simp [parserNewEffectiveConfig, pyParserConfigFrom, pyParserConfigDefault], rfl, rfl⟩

/-- C10: the NumberFormat pickle state round-trips through
__getstate__ and __setstate__, and every state byte greater than 4 is
rejected with a ValueError. -/
theorem c10_numberformat_pickle_roundtrip :
    (∀ v : NumberFormat, numberFormatSetstate (numberFormatGetstate v) = .ok v) ∧
    (∀ s : Nat, 4 < s → numberFormatSetstate s = .error (.valueError "Invalid state")) := by
  constructor
  · intro v
    cases v <;> rfl
  · intro s hs
    unfold numberFormatSetstate
    rw [if_neg (by omega), if_neg (by omega), if_neg (by omega), if_neg (by omega),
      if_neg (by omega)]

/-- Witness for C10 at concrete inputs: hex round-trips and the state
byte 5 raises ValueError. -/
theorem c10_numberformat_pickle_roundtrip_witness :
    numberFormatSetstate (numberFormatGetstate NumberFormat.hex) = .ok NumberFormat.hex ∧
    (4 < 5 ∧ numberFormatSetstate 5 = .error (.valueError "Invalid state")) :=
  ⟨c10_numberformat_pickle_roundtrip.1 NumberFormat.hex,
   by omega, c10_numberformat_pickle_roundtrip.2 5 (by omega)⟩

/-- C8: starting from any non-negative indentation level, dec_indent
clamps at zero (it is the identity at level 0 and never goes
negative), inc_indent followed by dec_indent restores the previous
state, and get_indent returns the level without modifying the
state. -/
theorem c8_indent_counter (w : WriterState) (hw : 0 ≤ w.indent_level) :
    0 ≤ (dec_indent w).indent_level ∧
    (w.indent_level = 0 → dec_indent w = w) ∧
    dec_indent (inc_indent w) = w ∧
    get_indent w = (w.indent_level, w) := by
  refine ⟨le_max_right _ _, ?_, ?_, rfl⟩
  · intro h0
    unfold dec_indent
    cases w with
    | mk lvl out =>
      simp only at h0
      subst h0
      simp
  · unfold dec_indent inc_indent
    cases w with
    | mk lvl out =>
      simp only
      rw [show lvl + 1 - 1 = lvl by ring, max_eq_left hw]

/-- Witness for C8 at a concrete state. -/
theorem c8_indent_counter_witness :
    0 ≤ (dec_indent ⟨0, []⟩).indent_level ∧
    ((0 : Int) = 0 → dec_indent ⟨0, []⟩ = ⟨0, []⟩) ∧
    dec_indent (inc_indent ⟨0, []⟩) = ⟨0, []⟩ ∧
    get_indent ⟨0, []⟩ = (0, ⟨0, []⟩) :=
  c8_indent_counter ⟨0, []⟩ (le_refl 0)

/-- C9: py_to_rs_value tries i64, f64, String, bool in that order, so
Python booleans (an int subclass) convert to Value integers (1 for
True, 0 for False), Value booleans are never produced from Python
input, and a boolean parameter sent in from Python reads back out as
a Python int. -/
theorem c9_bool_converts_to_int :
    (∀ b : Bool, py_to_rs_value (.bool b) = .ok (.intV (if b then 1 else 0)) ∧
      (py_to_rs_value (.bool b)).map rs_value_to_py = .ok (.int (if b then 1 else 0))) ∧
    (∀ (o : PyVal) (v : Value), py_to_rs_value o = .ok v → ∀ bl : Bool, v ≠ .boolV bl) := by
  constructor
  · intro b
    cases b <;> exact ⟨rfl, rfl⟩
  · intro o v h bl heq
    subst heq
    cases o <;>
      simp [py_to_rs_value, extract_i64, extract_f64, extract_str, extract_bool] at h

/-- Witness for C9 at a concrete input: True converts to the integer
1, which is not a Value boolean. -/
theorem c9_bool_converts_to_int_witness :
    py_to_rs_value (PyVal.bool true) = .ok (.intV 1) ∧
    Value.intV 1 ≠ Value.boolV true :=
  ⟨(c9_bool_converts_to_int.1 true).1,
   c9_bool_converts_to_int.2 (PyVal.bool true) (Value.intV 1) rfl true⟩

theorem pyDictSetItem_append {α : Type} (d : List (String × α)) (k : String) (v : α)
    (h : ∀ e ∈ d, e.1 ≠ k) : pyDictSetItem d k v = d ++ [(k, v)] := by
  induction d with
  | nil => rfl
  | cons e t ih =>
    unfold pyDictSetItem
    rw [if_neg (h e (by simp))]
    rw [ih (fun x hx => h x (by simp [hx]))]
    simp

theorem foldl_setItem_append {α : Type} (f : Value → α) :
    ∀ (items : List (String × Value)) (d : List (String × α)),
      (∀ k ∈ items.map Prod.fst, ∀ e ∈ d, e.1 ≠ k) →
      (items.map Prod.fst).Nodup →
      items.foldl (fun d kv => pyDictSetItem d kv.1 (f kv.2)) d =
        d ++ items.map (fun kv => (kv.1, f kv.2)) := by
  intro items
  induction items with
  | nil => intro d _ _; simp
  | cons kv t ih =>
    intro d hdis hnd
    obtain ⟨k, v⟩ := kv
    simp only [List.foldl]
    rw [pyDictSetItem_append d k (f v) (hdis k (by simp))]
    rw [ih (d ++ [(k, f v)]) ?_ ?_]
    · simp
    · intro k2 hk2 e he
      rcases List.mem_append.mp he with hd | hsing
      · exact hdis k2 (by simp [hk2]) e hd
      · simp only [List.mem_singleton] at hsing
        rw [hsing]
        show k ≠ k2
        simp only [List.map_cons, List.nodup_cons] at hnd
        intro heq
        exact hnd.1 (heq ▸ hk2)
    · simp only [List.map_cons, List.nodup_cons] at hnd
      exact hnd.2

/-- C4 counterexample: a Dict composite value with a duplicate key
does not read back as the full pair sequence; the Python dict
collapses the duplicate, keeping the first position and the last
value. -/
theorem c4_dict_duplicate_counterexample :
    rs_composite_value_to_py (.dictV [("a", .intV 1), ("a", .intV 2)]) ≠
      .dict [("a", .int 1), ("a", .int 2)] ∧
    rs_composite_value_to_py (.dictV [("a", .intV 1), ("a", .intV 2)]) =
      .dict [("a", .int 2)] := by
  constructor
  · decide
  · decide

/-- C4 (amended): reading a Dict composite value back through the
public getters yields its pairs in insertion order when the keys are
pairwise distinct; pairs with duplicate keys are collapsed by the
Python dict (first position kept, last value wins), not preserved. -/
theorem c4_dict_readback_nodup (items : List (String × Value))
    (hnd : (items.map Prod.fst).Nodup) :
    rs_composite_value_to_py (.dictV items) =
      .dict (items.map (fun kv => (kv.1, rs_value_to_py kv.2))) ∧
    ∀ name cname : String,
      kwargsGetter ⟨name, [.composite cname (.dictV items)]⟩ =
        [(cname, .dict (items.map (fun kv => (kv.1, rs_value_to_py kv.2))))] := by
  have hfold : items.foldl (fun d kv => pyDictSetItem d kv.1 (rs_value_to_py kv.2)) [] =
      items.map (fun kv => (kv.1, rs_value_to_py kv.2)) := by
    have := foldl_setItem_append rs_value_to_py items [] (by simp) hnd
    simpa using this
  constructor
  · show PyCompositeObj.dict _ = _
    rw [hfold]
  · intro name cname
    show pyDictSetItem [] cname (rs_composite_value_to_py (.dictV items)) = _
    show [(cname, rs_composite_value_to_py (.dictV items))] = _
    show [(cname, PyCompositeObj.dict (items.foldl
      (fun d kv => pyDictSetItem d kv.1 (rs_value_to_py kv.2)) []))] = _
    rw [hfold]

/-- Witness for C4's amended statement at a concrete two-key dict. -/
theorem c4_dict_readback_nodup_witness :
    rs_composite_value_to_py (.dictV [("a", .intV 1), ("b", .intV 2)]) =
      .dict [("a", .int 1), ("b", .int 2)] ∧
    kwargsGetter ⟨"c", [.composite "t" (.dictV [("a", .intV 1), ("b", .intV 2)])]⟩ =
      [("t", .dict [("a", .int 1), ("b", .int 2)])] :=
  ⟨(c4_dict_readback_nodup [("a", .intV 1), ("b", .intV 2)] (by decide)).1,
   (c4_dict_readback_nodup [("a", .intV 1), ("b", .intV 2)] (by decide)).2 "c" "t"⟩

/-- C7: the Python file-like line source signals end of input exactly
when readline() returned an empty string; a raised readline, a
non-string return and non-UTF-8 content are I/O errors, never end of
input. -/
theorem c7_next_line_eof_iff (r : ReadlineResult) :
    (next_line r = .ok Option.none ↔ ∃ o, r = .str o ∧ o.is_empty = .ok true) ∧
    (∀ e, r = .raised e → next_line r = .error (.other e)) ∧
    (r = .nonString → ∃ m, next_line r = .error (.invalidData m)) ∧
    (∀ o, r = .str o → o.utf8 = Option.none → o.is_empty = .ok false →
      ∃ m, next_line r = .error (.invalidData m)) := by
  refine ⟨?_, ?_, ?_, ?_⟩
  · constructor
    · intro h
      cases r with
      | raised e => exact absurd h (by simp [next_line])
      | nonString => exact absurd h (by simp [next_line])
      | str o =>
        refine ⟨o, rfl, ?_⟩
        have h' : (match o.is_empty with
          | Except.ok true => (Except.ok Option.none : Except IoErr (Option String))
          | Except.error pyerr => Except.error (.other pyerr)
          | Except.ok false =>
            match o.utf8 with
            | Option.none => Except.error (.invalidData "Invalid UTF-8 in input")
            | some s => Except.ok (some s)) = Except.ok Option.none := h
        split at h'
        · rename_i heq; exact heq
        · exact absurd h' (by simp)
        · split at h'
          · exact absurd h' (by simp)
          · exact absurd h' (by simp)
    · rintro ⟨o, rfl, he⟩
      show (match o.is_empty with
        | Except.ok true => (Except.ok Option.none : Except IoErr (Option String))
        | Except.error pyerr => Except.error (.other pyerr)
        | Except.ok false =>
          match o.utf8 with
          | Option.none => Except.error (.invalidData "Invalid UTF-8 in input")
          | some s => Except.ok (some s)) = Except.ok Option.none
      rw [he]
  · rintro e rfl
    rfl
  · rintro rfl
    exact ⟨_, rfl⟩
  · rintro o rfl hu he
    show ∃ m, (match o.is_empty with
      | Except.ok true => (Except.ok Option.none : Except IoErr (Option String))
      | Except.error pyerr => Except.error (.other pyerr)
      | Except.ok false =>
        match o.utf8 with
        | Option.none => Except.error (.invalidData "Invalid UTF-8 in input")
        | some s => Except.ok (some s)) = Except.error (.invalidData m)
    rw [he, hu]
    exact ⟨_, rfl⟩

/-- Witness for C7 at concrete readline outcomes. -/
theorem c7_next_line_eof_iff_witness :
    next_line (.str ⟨.ok true, some "x"⟩) = .ok Option.none ∧
    next_line (.raised "boom") = .error (.other "boom") :=
  ⟨(c7_next_line_eof_iff (.str ⟨.ok true, some "x"⟩)).1.mpr ⟨⟨.ok true, some "x"⟩, rfl, rfl⟩,
   (c7_next_line_eof_iff (.raised "boom")).2.1 "boom" rfl⟩

theorem next_command_nil (pycfg : PyParserConfig) (cfg : ParserConfig) (fn : String) (ln : Nat) :
    next_command ⟨pycfg, ⟨cfg, fn, ln, []⟩⟩ = (.ok Option.none, ⟨pycfg, ⟨cfg, fn, ln, []⟩⟩) := rfl

theorem next_command_text_ok {cfg : ParserConfig} {l : String} {c : Command}
    (pycfg : PyParserConfig) (fn : String) (ln : Nat) (rest : List LineItem)
    (hl : parseLine cfg l = .ok c) :
    next_command ⟨pycfg, ⟨cfg, fn, ln, .text l :: rest⟩⟩ =
      (.ok (some c), ⟨pycfg, ⟨cfg, fn, ln + 1, rest⟩⟩) := by
  unfold next_command next_command_core
  simp only
  rw [hl]

theorem run_next_commands_spec {cfg : ParserConfig} {cb : PyParserConfig}
    {fn : String} :
    ∀ {lines : List String} {cmds : List Command} (ln : Nat),
      List.Forall₂ (fun l c => parseLine cfg l = .ok c) lines cmds →
      run_next_commands ⟨cb, ⟨cfg, fn, ln, lines.map .text⟩⟩ (lines.length + 1) =
        cmds.map (fun c => .ok (some c)) ++ [.ok Option.none] := by
  intro lines
  induction lines with
  | nil =>
    intro cmds ln hpar
    cases hpar
    rfl
  | cons l lt ih =>
    intro cmds ln hpar
    cases hpar with
    | cons hl hrest =>
      rename_i c ct
      show run_next_commands ⟨cb, ⟨cfg, fn, ln, .text l :: lt.map .text⟩⟩ (lt.length + 1 + 1) = _
      unfold run_next_commands
      rw [next_command_text_ok cb fn ln (lt.map .text) hl]
      show Except.ok (some c) :: run_next_commands
        ⟨cb, ⟨cfg, fn, ln + 1, lt.map .text⟩⟩ (lt.length + 1) = _
      rw [ih (ln + 1) hrest]
      simp

/-- C6: for an input whose N lines each parse to a command, N calls
of next_command return those commands in source order and the N+1-th
returns None; None is returned only at clean end of input (empty
remaining input); and Python iteration turns that None into
StopIteration. -/
theorem c6_iteration_order (pycfg : PyParserConfig) (cfg : ParserConfig) (fn : String)
    (ln : Nat) (lines : List String) (cmds : List Command)
    (hpar : List.Forall₂ (fun l c => parseLine cfg l = .ok c) lines cmds) :
    run_next_commands ⟨pycfg, ⟨cfg, fn, ln, lines.map .text⟩⟩ (lines.length + 1) =
      cmds.map (fun c => .ok (some c)) ++ [.ok Option.none] ∧
    (∀ st : PyParserState, (next_command st).1 = .ok Option.none → st.inner.input = []) ∧
    (∀ st : PyParserState, (next_command st).1 = .ok Option.none →
      (dunder_next st).1 = .error ⟨.stopIteration, []⟩) := by
  refine ⟨run_next_commands_spec ln hpar, ?_, ?_⟩
  · intro st h
    obtain ⟨stcfg, ⟨icfg, ifn, iln, input⟩⟩ := st
    cases input with
    | nil => rfl
    | cons it rest =>
      exfalso
      cases it with
      | ioFail e =>
        have h' : (Except.error (⟨.ioExc e, []⟩ : Raised) :
            Except Raised (Option Command)) = .ok Option.none := h
        simp at h'
      | text l =>
        cases hpl : parseLine icfg l with
        | ok c =>
          rw [show next_command ⟨stcfg, ⟨icfg, ifn, iln, .text l :: rest⟩⟩ =
            (.ok (some c), ⟨stcfg, ⟨icfg, ifn, iln + 1, rest⟩⟩) from
            next_command_text_ok stcfg ifn iln rest hpl] at h
          simp at h
        | error info =>
          have hcore : next_command_core ⟨icfg, ifn, iln, .text l :: rest⟩ =
              (.error ⟨info, some (mkTb iln l), some ⟨ifn, iln, l⟩⟩,
               ⟨icfg, ifn, iln + 1, rest⟩) := by
            unfold next_command_core
            simp only
            rw [hpl]
          unfold next_command at h
          rw [hcore] at h
          cases info <;> simp at h <;>
            · split at h <;> simp at h
  · intro st h
    unfold dunder_next
    rw [show next_command st = (Except.ok Option.none, (next_command st).2) from by
      rw [← h]]

/-- Witness for C6 at a concrete two-line input. -/
theorem c6_iteration_order_witness :
    run_next_commands ⟨pyParserConfigDefault,
      ⟨⟨1, false, true⟩, "<s>", 1, [.text "#a", .text "hello"]⟩⟩ 3 =
      [.ok (some ⟨"a", []⟩), .ok (some (Command.newText "hello")), .ok Option.none] :=
  (c6_iteration_order pyParserConfigDefault ⟨1, false, true⟩ "<s>" 1 ["#a", "hello"]
    [⟨"a", []⟩, Command.newText "hello"]
    (List.Forall₂.cons rfl (List.Forall₂.cons rfl List.Forall₂.nil))).1

theorem process_with_cons_ok {pycfg : PyParserConfig} {cfg : ParserConfig} {fn : String}
    {l : String} {c : Command} (ln : Nat) (rest : List LineItem)
    (cb : Command → Except PyExc Bool) (hl : parseLine cfg l = .ok c) :
    process_with pycfg cfg fn ln (.text l :: rest) cb =
      (match cb c with
       | .error e => (.error ⟨e, []⟩, [c])
       | .ok false => (.ok false, [c])
       | .ok true =>
         match process_with pycfg cfg fn (ln + 1) rest cb with
         | (res, tr) => (res, c :: tr)) := by
  have hcore : (next_command_core ⟨cfg, fn, ln, .text l :: rest⟩).1 = .ok (some c) := by
    unfold next_command_core
    simp only
    rw [hl]
  conv_lhs => rw [process_with]
  rw [hcore]

theorem process_with_ioFail {pycfg : PyParserConfig} {cfg : ParserConfig} {fn : String}
    {e : String} (ln : Nat) (rest : List LineItem) (cb : Command → Except PyExc Bool) :
    process_with pycfg cfg fn ln (.ioFail e :: rest) cb = (.error ⟨.ioExc e, []⟩, []) := rfl

theorem process_with_nil {pycfg : PyParserConfig} {cfg : ParserConfig} {fn : String}
    (ln : Nat) (cb : Command → Except PyExc Bool) :
    process_with pycfg cfg fn ln [] cb = (.ok true, []) := by
  rw [process_with]

theorem process_with_cons_err {pycfg : PyParserConfig} {cfg : ParserConfig} {fn : String}
    {l : String} {info : ErrorInfo} (ln : Nat) (rest : List LineItem)
    (cb : Command → Except PyExc Bool) (hl : parseLine cfg l = .error info) :
    process_with pycfg cfg fn ln (.text l :: rest) cb =
      (.error (if pycfg.skip_add_traceback then
          ⟨raise_parser_err ⟨info, some (mkTb ln l), some ⟨fn, ln, l⟩⟩, []⟩
        else add_traceback ⟨raise_parser_err ⟨info, some (mkTb ln l), some ⟨fn, ln, l⟩⟩, []⟩
          fn "<koilang>" ln), []) := by
  have hcore : (next_command_core ⟨cfg, fn, ln, .text l :: rest⟩).1 =
      .error ⟨info, some (mkTb ln l), some ⟨fn, ln, l⟩⟩ := by
    unfold next_command_core
    simp only
    rw [hl]
  conv_lhs => rw [process_with]
  rw [hcore]

theorem process_with_pre {pycfg : PyParserConfig} {cfg : ParserConfig} {fn : String}
    {cb : Command → Except PyExc Bool} :
    ∀ {pre : List String} {cmdsPre : List Command} (ln : Nat) (restInput : List LineItem),
      List.Forall₂ (fun l c => parseLine cfg l = .ok c) pre cmdsPre →
      (∀ c ∈ cmdsPre, cb c = .ok true) →
      process_with pycfg cfg fn ln (pre.map .text ++ restInput) cb =
        ((process_with pycfg cfg fn (ln + pre.length) restInput cb).1,
         cmdsPre ++ (process_with pycfg cfg fn (ln + pre.length) restInput cb).2) := by
  intro pre
  induction pre with
  | nil =>
    intro cmdsPre ln restInput hpar _
    cases hpar
    simp
  | cons l lt ih =>
    intro cmdsPre ln restInput hpar hcb
    cases hpar with
    | cons hl hrest =>
      rename_i c ct
      show process_with pycfg cfg fn ln (.text l :: (lt.map .text ++ restInput)) cb = _
      rw [@process_with_cons_ok pycfg cfg fn l c ln (lt.map LineItem.text ++ restInput) cb hl,
        hcb c (by simp)]
      rw [ih (ln + 1) restInput hrest (fun x hx => hcb x (by simp [hx]))]
      simp only [List.length_cons, List.cons_append]
      rw [show ln + 1 + lt.length = ln + (lt.length + 1) from by omega]

/-- C5: process_with invokes the callback once per parsed command in
order (the returned trace after a run of commands the callback
accepted is exactly those commands); it returns Ok true at end of
input without invoking anything further; when the callback returns
false it stops cleanly with Ok false right after that invocation;
when the callback raises, the exception is propagated to the caller
unchanged (same exception value, no synthetic frames added); and a
parse error is propagated as the corresponding raised KoiParseError,
never swallowed. -/
theorem c5_process_with (pycfg : PyParserConfig) (cfg : ParserConfig) (fn : String)
    (cb : Command → Except PyExc Bool) (pre : List String) (cmdsPre : List Command)
    (ln : Nat)
    (hpar : List.Forall₂ (fun l c => parseLine cfg l = .ok c) pre cmdsPre)
    (hcb : ∀ c ∈ cmdsPre, cb c = .ok true) :
    (process_with pycfg cfg fn ln (pre.map .text) cb = (.ok true, cmdsPre)) ∧
    (∀ (l : String) (c : Command) (rest : List LineItem),
      parseLine cfg l = .ok c → cb c = .ok false →
      process_with pycfg cfg fn ln (pre.map .text ++ .text l :: rest) cb
        = (.ok false, cmdsPre ++ [c])) ∧
    (∀ (l : String) (c : Command) (e : PyExc) (rest : List LineItem),
      parseLine cfg l = .ok c → cb c = .error e →
      process_with pycfg cfg fn ln (pre.map .text ++ .text l :: rest) cb
        = (.error ⟨e, []⟩, cmdsPre ++ [c])) ∧
    (∀ (l : String) (info : ErrorInfo) (rest : List LineItem),
      parseLine cfg l = .error info →
      process_with pycfg cfg fn ln (pre.map .text ++ .text l :: rest) cb
        = (.error (if pycfg.skip_add_traceback then
              ⟨raise_parser_err ⟨info, some (mkTb (ln + pre.length) l),
                some ⟨fn, ln + pre.length, l⟩⟩, []⟩
            else add_traceback ⟨raise_parser_err ⟨info, some (mkTb (ln + pre.length) l),
                some ⟨fn, ln + pre.length, l⟩⟩, []⟩ fn "<koilang>" (ln + pre.length)),
           cmdsPre)) := by
  refine ⟨?_, ?_, ?_, ?_⟩
  · have h := @process_with_pre pycfg cfg fn cb pre cmdsPre ln [] hpar hcb
    rw [List.append_nil] at h
    rw [h, process_with_nil]
    simp
  · intro l c rest hl hstop
    rw [@process_with_pre pycfg cfg fn cb pre cmdsPre ln (.text l :: rest) hpar hcb]
    rw [@process_with_cons_ok pycfg cfg fn l c (ln + pre.length) rest cb hl, hstop]
  · intro l c e rest hl hraise
    rw [@process_with_pre pycfg cfg fn cb pre cmdsPre ln (.text l :: rest) hpar hcb]
    rw [@process_with_cons_ok pycfg cfg fn l c (ln + pre.length) rest cb hl, hraise]
  · intro l info rest hl
    rw [@process_with_pre pycfg cfg fn cb pre cmdsPre ln (.text l :: rest) hpar hcb]
    rw [@process_with_cons_err pycfg cfg fn l info (ln + pre.length) rest cb hl]
    simp

theorem c5_process_with_witness :
    process_with pyParserConfigDefault ⟨1, false, true⟩ "<s>" 1
      (List.map LineItem.text ["#a", "hello"]) (fun _ => Except.ok true)
      = (.ok true, [⟨"a", []⟩, Command.newText "hello"]) :=
  (c5_process_with pyParserConfigDefault ⟨1, false, true⟩ "<s>" (fun _ => Except.ok true)
    ["#a", "hello"] [⟨"a", []⟩, Command.newText "hello"] 1
    (List.Forall₂.cons rfl (List.Forall₂.cons rfl List.Forall₂.nil))
    (fun _ _ => rfl)).1

/-- C3: every error surfaced through the Python interface is either a
directly raised I/O failure, carrying no diagnostics traceback, no
line source and no synthetic frame, or one of the three KoiParseError
kinds carrying the error's traceback tree and a line source, both
present; an I/O failure aborts next_command immediately, and aborts
the process_with loop immediately after the commands before it. -/
theorem c3_error_enrichment :
    (∀ (st st' : PyParserState) (r : Raised),
      next_command st = (.error r, st') →
      ((∃ e, r = ⟨.ioExc e, []⟩) ∨
       (∃ tb src,
         (∃ m, r.exc = .koiSyn m (some tb) (some src)) ∨
         (∃ m, r.exc = .koiUnexpectedInput m (some tb) (some src)) ∨
         (∃ m, r.exc = .koiUnexpectedEof m (some tb) (some src))))) ∧
    (∀ (pycfg : PyParserConfig) (cfg : ParserConfig) (fn : String) (ln : Nat)
       (e : String) (rest : List LineItem),
      next_command ⟨pycfg, ⟨cfg, fn, ln, .ioFail e :: rest⟩⟩
        = (.error ⟨.ioExc e, []⟩, ⟨pycfg, ⟨cfg, fn, ln + 1, rest⟩⟩)) ∧
    (∀ (pycfg : PyParserConfig) (cfg : ParserConfig) (fn : String)
       (cb : Command → Except PyExc Bool) (pre : List String) (cmdsPre : List Command)
       (ln : Nat) (e : String) (post : List LineItem),
      List.Forall₂ (fun l c => parseLine cfg l = .ok c) pre cmdsPre →
      (∀ c ∈ cmdsPre, cb c = .ok true) →
      process_with pycfg cfg fn ln (pre.map .text ++ .ioFail e :: post) cb
        = (.error ⟨.ioExc e, []⟩, cmdsPre)) := by
  refine ⟨?_, ?_, ?_⟩
  · intro st st' r h
    obtain ⟨pycfg, cfg, fn, ln, input⟩ := st
    match input with
    | [] =>
      simp [next_command, next_command_core] at h
    | .ioFail e :: rest =>
      simp [next_command, next_command_core] at h
      exact .inl ⟨e, h.1.symm⟩
    | .text l :: rest =>
      cases hp : parseLine cfg l with
      | ok c =>
        simp [next_command, next_command_core, hp] at h
      | error info =>
        cases info with
        | ioError io =>
          simp [next_command, next_command_core, hp] at h
          exact .inl ⟨io, h.1.symm⟩
        | synErr m =>
          simp [next_command, next_command_core, hp, raise_parser_err,
            add_traceback] at h
          refine .inr ⟨mkTb ln l, ⟨fn, ln, l⟩, .inl ⟨m, ?_⟩⟩
          rw [← h.1]
          cases pycfg.skip_add_traceback <;> rfl
        | unexpectedInput rm =>
          simp [next_command, next_command_core, hp, raise_parser_err,
            add_traceback] at h
          refine .inr ⟨mkTb ln l, ⟨fn, ln, l⟩, .inr (.inl ⟨rm, ?_⟩)⟩
          rw [← h.1]
          cases pycfg.skip_add_traceback <;> rfl
        | unexpectedEof x =>
          simp [next_command, next_command_core, hp, raise_parser_err,
            add_traceback] at h
          refine .inr ⟨mkTb ln l, ⟨fn, ln, l⟩, .inr (.inr ⟨x, ?_⟩)⟩
          rw [← h.1]
          cases pycfg.skip_add_traceback <;> rfl
  · intro pycfg cfg fn ln e rest
    rfl
  · intro pycfg cfg fn cb pre cmdsPre ln e post hpar hcb
    rw [@process_with_pre pycfg cfg fn cb pre cmdsPre ln (.ioFail e :: post) hpar hcb]
    rw [@process_with_ioFail pycfg cfg fn e (ln + pre.length) post cb]
    simp

theorem c3_error_enrichment_witness :
    process_with pyParserConfigDefault ⟨1, false, true⟩ "<s>" 1
      (List.map LineItem.text ["#a"] ++ .ioFail "boom" :: []) (fun _ => Except.ok true)
      = (.error ⟨.ioExc "boom", []⟩, [⟨"a", []⟩]) :=
  c3_error_enrichment.2.2 pyParserConfigDefault ⟨1, false, true⟩ "<s>"
    (fun _ => Except.ok true) ["#a"] [⟨"a", []⟩] 1 "boom" []
    (List.Forall₂.cons rfl List.Forall₂.nil) (fun _ _ => rfl)
